import Mathlib

/-!
Verification of profiler-cli's data reshaping logic.

The repository drives a headless browser; all of its own computation consists
of pure reshaping of JSON-like data pulled from the Firefox Profiler web app
(sorting, grouping, slicing, phase differencing) plus a fixed sequence of page
operations.  The definitions below are shallow embeddings of those pure
computations, translated from `src/index.ts`, `src/profiler.ts` and the
annotation module.  JavaScript numbers are modelled as rationals (`ℚ`),
possibly-absent fields as `Option`, and JavaScript truthiness of numbers and
strings is modelled explicitly (`0` and `""` are falsy).
-/

namespace ProfilerCli

/-- JS `a || b` for numeric `a` that may be `undefined`/`null`: yields `b`
when `a` is absent or `0`. -/
def jsOr (o : Option ℚ) (d : ℚ) : ℚ :=
  match o with
  | none => d
  | some x => if x = 0 then d else x

/-- JS truthiness of a possibly-absent number (`0` and absent are falsy). -/
def truthyQ (o : Option ℚ) : Bool :=
  match o with
  | none => false
  | some x => decide (x ≠ 0)

/-- JS truthiness of a possibly-absent string (`""` and absent are falsy). -/
def truthyStr (o : Option String) : Bool :=
  match o with
  | none => false
  | some s => !s.isEmpty

/-- JS `a || b` for a possibly-absent string `a`. -/
def jsOrStr (o : Option String) (d : String) : String :=
  match o with
  | none => d
  | some s => if s.isEmpty then d else s

/-- A JS value that is either a string or a string-table index (a number).
Used for `marker.data.name`. -/
inductive StrOrNum where
  | str (s : String)
  | num (n : Nat)
deriving DecidableEq, Repr

/-- The fields of `marker.data` that the extraction code reads.  Absent
object properties are `none`. -/
structure MarkerData where
  dataName : Option StrOrNum
  uri : Option String
  dtype : Option String
  status : Option String
  cache : Option String
  contentType : Option String
  count : Option ℚ
  httpVersion : Option String
  phaseStartTime : Option ℚ
  phaseDomainLookupStart : Option ℚ
  phaseDomainLookupEnd : Option ℚ
  phaseConnectStart : Option ℚ
  phaseTcpConnectEnd : Option ℚ
  phaseSecureConnectionStart : Option ℚ
  phaseConnectEnd : Option ℚ
  phaseRequestStart : Option ℚ
  phaseResponseStart : Option ℚ
  phaseResponseEnd : Option ℚ
  phaseEndTime : Option ℚ
deriving DecidableEq, Repr

/-- A `marker.data` value with every field absent (handy for tests). -/
def MarkerData.empty : MarkerData :=
  ⟨none, none, none, none, none, none, none, none, none, none, none, none,
   none, none, none, none, none, none, none⟩

/-- A marker of the profiler's filtered marker list, with the fields the
extraction code reads. -/
structure Marker where
  name : String
  start : Option ℚ
  stop : Option ℚ
  startTime : Option ℚ
  data : Option MarkerData
deriving DecidableEq, Repr

/-- A string table: `stringTable.getString`. -/
def StringTable := Nat → String

/-- Marker display-name resolution as written inside `getMarkerSummary`
(profiler.ts lines 253-262): `marker.name` unless `marker.data` exists and
`marker.data.name` is defined, in which case the string itself or the
string-table lookup when it is a number. -/
def markerSummaryName (st : StringTable) (m : Marker) : String :=
  match m.data with
  | none => m.name
  | some d =>
    match d.dataName with
    | none => m.name
    | some (.num n) => st n
    | some (.str s) => s

/-- Marker display-name resolution as written inside `getPageLoadSummary`
(profiler.ts lines 519-527). -/
def pageLoadMarkerName (st : StringTable) (m : Marker) : String :=
  match m.data with
  | none => m.name
  | some d =>
    match d.dataName with
    | none => m.name
    | some (.num n) => st n
    | some (.str s) => s

/-- Marker display-name resolution as written inside `getNetworkResources`
(profiler.ts lines 791-799). -/
def networkMarkerName (st : StringTable) (m : Marker) : String :=
  match m.data with
  | none => m.name
  | some d =>
    match d.dataName with
    | none => m.name
    | some (.num n) => st n
    | some (.str s) => s

/-- Modelled from the spec claim's words: the marker display name is
`marker.name` unless `marker.data` exists and `marker.data.name` is defined,
in which case it is `marker.data.name` itself when that value is not a
number, and `stringTable.getString(marker.data.name)` when it is a number. -/
def resolveMarkerNameSpec (st : StringTable) (m : Marker) : String :=
  match m.data with
  | some d =>
    match d.dataName with
    | some v =>
      match v with
      | .num n => st n
      | .str s => s
    | none => m.name
  | none => m.name

/-! ## The in-page call tree

The profiler web app exposes `callTree` with `getRoots()`, `getNodeData(i)`
and `getChildren(i)`; together these describe a finite forest.  We embed a
call-tree node together with its `getNodeData` result and its `getChildren`
subforest as a rose tree. -/

/-- The `getNodeData` record fields read by the extraction code. -/
structure NodeData where
  funcName : Option String
  self : Option ℚ
  total : Option ℚ
deriving DecidableEq, Repr

/-- A call-tree node: its `getNodeData` result (possibly absent) and its
`getChildren` subforest. -/
inductive CTree where
  | node (nd : Option NodeData) (children : List CTree)

/-- The node data of the node itself. -/
def CTree.nd : CTree → Option NodeData
  | .node d _ => d

/-- The children of the node. -/
def CTree.children : CTree → List CTree
  | .node _ cs => cs

/-- JS guard `!nodeData || !nodeData.funcName` (inverted): the node data is
present and its `funcName` is truthy. -/
def hasFuncName (nd : Option NodeData) : Bool :=
  match nd with
  | none => false
  | some d => truthyStr d.funcName

/-- `nodeData.funcName` as a string once `hasFuncName` holds (else `""`). -/
def funcNameOf (nd : Option NodeData) : String :=
  match nd with
  | none => ""
  | some d => (d.funcName).getD ""

/-- One collected call path: profiler.ts `{ stack, samples }`. -/
structure CallPath where
  stack : List String
  samples : ℚ
deriving DecidableEq, Repr

/-- `collectCallPaths` (profiler.ts lines 134-157): walk the subtree of a
valid node accumulating the path of function names; a leaf contributes one
path whose sample count is `nodeData.total || nodeData.self || 0`. -/
def collectCallPaths (t : CTree) (currentPath : List String) : List CallPath :=
  match t with
  | .node nd cs =>
    if hasFuncName nd then
      let newPath := currentPath ++ [funcNameOf nd]
      if cs.isEmpty then
        [⟨newPath, jsOr (nd.getD ⟨none, none, none⟩).total
            (jsOr (nd.getD ⟨none, none, none⟩).self 0)⟩]
      else
        cs.attach.foldl (fun acc c => acc ++ collectCallPaths c.1 newPath) []
    else []
termination_by sizeOf t
decreasing_by
  have := List.sizeOf_lt_of_mem c.2
  simp only [CTree.node.sizeOf_spec]
  omega

/-- A node of the `--calltree` output (types.ts `CallTreeNode`). -/
structure CallTreeNode where
  name : String
  selfTime : ℚ
  totalTime : ℚ
  stack : List String
  callPaths : Option (List CallPath)
deriving DecidableEq, Repr

/-- The per-root node built by `getCallTreeData`'s extraction loop
(profiler.ts lines 161-184): `none` when the root's node data is absent or
its `funcName` is falsy. -/
def rootToNode (detailed : Bool) (t : CTree) : Option CallTreeNode :=
  match t.nd with
  | none => none
  | some d =>
    match d.funcName with
    | none => none
    | some fn =>
      if fn.isEmpty then none
      else
        some ⟨fn, jsOr d.self 0, jsOr d.total 0, [fn],
              if detailed then some (collectCallPaths t []) else none⟩

/-- Comparator for `allNodes.sort((a, b) => b.selfTime - a.selfTime)`:
stable sort, descending by `selfTime`. -/
def selfDescLe (a b : CallTreeNode) : Bool := decide (b.selfTime ≤ a.selfTime)

/-- The JSON object returned by `getCallTreeData`'s page script. -/
structure CallTreeResult where
  totalNodes : Nat
  topNodes : List CallTreeNode
deriving DecidableEq, Repr

/-- `getCallTreeData`'s extraction script (profiler.ts lines 126-193): keep
the valid roots, sort them by self time descending, truncate to `topN`. -/
def getCallTreeData (roots : List CTree) (topN : Nat) (detailed : Bool) :
    CallTreeResult :=
  if roots.isEmpty then ⟨0, []⟩
  else
    let allNodes := roots.filterMap (rootToNode detailed)
    ⟨allNodes.length, (allNodes.mergeSort selfDescLe).take topN⟩

/-! ## The flamegraph forest -/

/-- A node of the `--flamegraph` output (types.ts `FlameNode`). -/
inductive FlameNode where
  | mk (name : String) (selfTime totalTime : ℚ) (children : List FlameNode)

/-- Field accessor: name. -/
def FlameNode.name : FlameNode → String
  | .mk n _ _ _ => n

/-- Field accessor: self time. -/
def FlameNode.selfTime : FlameNode → ℚ
  | .mk _ s _ _ => s

/-- Field accessor: total time. -/
def FlameNode.totalTime : FlameNode → ℚ
  | .mk _ _ t _ => t

/-- Field accessor: children. -/
def FlameNode.children : FlameNode → List FlameNode
  | .mk _ _ _ cs => cs

/-- Comparator for `children.sort((a, b) => b.totalTime - a.totalTime)`. -/
def totalDescLe (a b : FlameNode) : Bool := decide (b.totalTime ≤ a.totalTime)

/-- The guard `maxDepth !== null && currentDepth >= maxDepth`. -/
def depthCutoff (maxDepth : Option Nat) (d : Nat) : Bool :=
  match maxDepth with
  | some md => decide (md ≤ d)
  | none => false

/-- `buildFlameTree` (profiler.ts lines 426-455): `null` for nodes without a
truthy `funcName` (their whole subtree is dropped) and at depths `≥ maxDepth`
when `maxDepth` is a number; children are built recursively, the `null`
results dropped, and sorted by total time descending. -/
def buildFlameTree (maxDepth : Option Nat) (d : Nat) (t : CTree) :
    Option FlameNode :=
  match t with
  | .node nd cs =>
    if hasFuncName nd then
      if depthCutoff maxDepth d then
        none
      else
        some (.mk (funcNameOf nd)
          (jsOr ((nd.getD ⟨none, none, none⟩).self) 0)
          (jsOr ((nd.getD ⟨none, none, none⟩).total) 0)
          ((cs.attach.filterMap fun c => buildFlameTree maxDepth (d + 1) c.1).mergeSort
            totalDescLe))
    else none
termination_by sizeOf t
decreasing_by
  have := List.sizeOf_lt_of_mem c.2
  simp only [CTree.node.sizeOf_spec]
  omega

/-- `getFlamegraphData`'s extraction script (profiler.ts lines 457-465):
build every root's flame tree, drop the `null` ones, sort the roots by total
time descending. -/
def getFlamegraphData (roots : List CTree) (maxDepth : Option Nat) :
    List FlameNode :=
  (roots.filterMap (buildFlameTree maxDepth 0)).mergeSort totalDescLe

/-! ## Marker summaries (`--top-markers`) -/

/-- The skip guard of `getMarkerSummary`'s loop
(`!marker.start || !marker.end || marker.end === null`), inverted:
both endpoints are present and truthy. -/
def validMarkerSpan (m : Marker) : Bool :=
  truthyQ m.start && truthyQ m.stop

/-- `marker.end - marker.start` (fields read as numbers, absent as 0). -/
def markerDuration (m : Marker) : ℚ :=
  m.stop.getD 0 - m.start.getD 0

/-- A marker enters the statistics iff its span is valid and its duration is
strictly positive. -/
def countedMarker (m : Marker) : Bool :=
  validMarkerSpan m && decide (0 < markerDuration m)

/-- `markerStats` update: push a duration onto the entry for `name`,
creating the entry at the end on first use (JS `Map` insertion order). -/
def pushDuration (acc : List (String × List ℚ)) (name : String) (d : ℚ) :
    List (String × List ℚ) :=
  match acc with
  | [] => [(name, [d])]
  | (k, ds) :: rest =>
    if k = name then (k, ds ++ [d]) :: rest
    else (k, ds) :: pushDuration rest name d

/-- The `markerStats` map after `getMarkerSummary`'s grouping loop
(profiler.ts lines 241-270), as an insertion-ordered association list. -/
def markerStats (st : StringTable) (markers : List Marker) :
    List (String × List ℚ) :=
  markers.foldl
    (fun acc m =>
      if countedMarker m then pushDuration acc (markerSummaryName st m) (markerDuration m)
      else acc)
    []

/-- `Math.min(...ds)` for the nonempty lists the code applies it to. -/
def listMin : List ℚ → ℚ
  | [] => 0
  | x :: xs => xs.foldl min x

/-- `Math.max(...ds)` for the nonempty lists the code applies it to. -/
def listMax : List ℚ → ℚ
  | [] => 0
  | x :: xs => xs.foldl max x

/-- One marker summary (types.ts `MarkerSummary`). -/
structure MarkerSummary where
  name : String
  count : Nat
  totalDuration : ℚ
  avgDuration : ℚ
  minDuration : ℚ
  maxDuration : ℚ
deriving DecidableEq, Repr

/-- The summary built from one `markerStats` entry
(profiler.ts lines 273-288). -/
def mkSummary (p : String × List ℚ) : MarkerSummary :=
  let count := p.2.length
  let total := p.2.foldl (· + ·) 0
  ⟨p.1, count, total, total / (count : ℚ), listMin p.2, listMax p.2⟩

/-- Comparator for `summaries.sort((a, b) => b.count - a.count)`. -/
def countDescLe (a b : MarkerSummary) : Bool := decide (b.count ≤ a.count)

/-- `getMarkerSummary`'s extraction script (profiler.ts lines 234-292). -/
def getMarkerSummary (st : StringTable) (markers : List Marker) :
    List MarkerSummary :=
  ((markerStats st markers).map mkSummary).mergeSort countDescLe

/-- The durations of the counted markers resolving to `name`, in marker
order (what claim C2 calls the group of `name`). -/
def groupedDurations (st : StringTable) (markers : List Marker)
    (name : String) : List ℚ :=
  (markers.filter fun m => countedMarker m && (markerSummaryName st m == name)).map
    markerDuration

/-! ## Page-load summary (`--page-load`), navigation-metrics portion

`getPageLoadSummary`'s marker-scan loop (profiler.ts lines 516-575) and the
navigation-metric fields of its result object (lines 736-741).  The post-loop
aggregations (`resourceStats`, `sampleCategories`, `jankPeriods`) read the
loop state but never feed back into it and are outside this development's
claims. -/

/-- JS `haystack.includes(needle)` on character lists. -/
def charsInclude (pat : List Char) : List Char → Bool
  | [] => pat.isEmpty
  | c :: rest => pat.isPrefixOf (c :: rest) || charsInclude pat rest

/-- JS `haystack.includes(needle)`. -/
def strIncludes (s pat : String) : Bool := charsInclude pat.toList s.toList

/-- JS `s.startsWith(pre)`, modelled on character lists. -/
def strStarts (s pre : String) : Bool := pre.toList.isPrefixOf s.toList

/-- Digit run to its numeric value (`parseFloat` of a digit string). -/
def digitsVal (ds : List Char) : Nat :=
  ds.foldl (fun a c => 10 * a + (c.toNat - 48)) 0

/-- Try the regex `/after (\d+)ms/` at the start of `l`. -/
def afterMsAt (l : List Char) : Option Nat :=
  if ("after ".toList).isPrefixOf l then
    let rest := l.drop 6
    let ds := rest.takeWhile Char.isDigit
    if ds.isEmpty then none
    else if ("ms".toList).isPrefixOf (rest.drop ds.length) then
      some (digitsVal ds)
    else none
  else none

/-- Leftmost match of `/after (\d+)ms/` over a character list. -/
def searchAfterMs : List Char → Option Nat
  | [] => none
  | c :: rest =>
    match afterMsAt (c :: rest) with
    | some n => some n
    | none => searchAfterMs rest

/-- `markerName.match(/after (\d+)ms/)` with `parseFloat` on the capture. -/
def parseAfterMs (s : String) : Option ℚ :=
  (searchAfterMs s.toList).map fun n => (n : ℚ)

/-- Try `https?:\/\/[^,]+` at the start of `l`, returning the capture. -/
def urlCaptureAt (l : List Char) : Option String :=
  if ("https://".toList).isPrefixOf l then
    let body := (l.drop 8).takeWhile (· ≠ ',')
    if body.isEmpty then none
    else some (String.mk ("https://".toList ++ body))
  else if ("http://".toList).isPrefixOf l then
    let body := (l.drop 7).takeWhile (· ≠ ',')
    if body.isEmpty then none
    else some (String.mk ("http://".toList ++ body))
  else none

/-- Leftmost match of `/for URL (https?:\/\/[^,]+)/` over a character
list. -/
def searchForUrl : List Char → Option String
  | [] => none
  | c :: rest =>
    match
      (if ("for URL ".toList).isPrefixOf (c :: rest) then
        urlCaptureAt ((c :: rest).drop 8)
      else none) with
    | some u => some u
    | none => searchForUrl rest

/-- `markerName.match(/for URL (https?:\/\/[^,]+)/)`, capture group 1. -/
def matchForUrl (s : String) : Option String := searchForUrl s.toList

/-- Case-insensitive search for `.` followed by one of the extensions
(JS `uri.match(/\.(ext1|ext2|...)/i)` truthiness). -/
def matchDotExt (exts : List String) (uri : String) : Bool :=
  exts.any fun e => strIncludes uri.toLower ("." ++ e)

/-- The resource-type classification of the `Load ` branch
(profiler.ts lines 537-548). -/
def resourceTypeOf (uri : String) : String :=
  if uri.endsWith ".js" || strIncludes uri ".js?" then "JS"
  else if uri.endsWith ".css" || strIncludes uri ".css?" then "CSS"
  else if matchDotExt ["png", "jpg", "jpeg", "gif", "webp", "svg", "ico"] uri then
    "Image"
  else if matchDotExt ["woff", "woff2", "ttf", "eot"] uri then "Font"
  else if uri.startsWith "http" && !strIncludes uri "." then "Document"
  else "Other"

/-- One entry of the loop's `resources` array. -/
structure PLResource where
  url : String
  duration : ℚ
  rtype : String
deriving DecidableEq, Repr

/-- The mutable state of `getPageLoadSummary`'s marker-scan loop. -/
structure PLState where
  navigationStart : Option ℚ
  load : Option ℚ
  loadUrl : Option String
  fcp : Option ℚ
  lcp : Option ℚ
  resources : List PLResource
deriving DecidableEq, Repr

/-- `marker.start || marker.startTime || 0`. -/
def markerStartVal (m : Marker) : ℚ := jsOr m.start (jsOr m.startTime 0)

/-- One iteration of `getPageLoadSummary`'s marker-scan loop
(profiler.ts lines 516-575): the `else if` chain over the resolved marker
name. -/
def plStep (st : StringTable) (s : PLState) (m : Marker) : PLState :=
  let markerName := pageLoadMarkerName st m
  if markerName == "Navigation::Start" && s.navigationStart.isNone then
    { s with navigationStart := some (markerStartVal m) }
  else if strStarts markerName "Load " &&
      (match m.data with | some d => truthyStr d.uri | none => false) then
    match s.navigationStart with
    | some _ =>
      let uri := (m.data.getD MarkerData.empty).uri.getD ""
      let startv := markerStartVal m
      let dur := if truthyQ m.stop then m.stop.getD 0 - startv else 0
      let s' :=
        if strStarts uri "http" && !strIncludes uri ".js" &&
            !strIncludes uri ".css" && !truthyStr s.loadUrl then
          { s with loadUrl := some uri }
        else s
      { s' with resources := s'.resources ++ [⟨uri, dur, resourceTypeOf uri⟩] }
    | none => s
  else if markerName == "Load" && s.load.isNone then
    { s with load := some (markerStartVal m) }
  else if strStarts markerName "Contentful paint after" && s.fcp.isNone then
    match parseAfterMs markerName with
    | some v =>
      let s' := { s with fcp := some v }
      if strIncludes markerName "for URL" && !truthyStr s'.loadUrl then
        match matchForUrl markerName with
        | some u => { s' with loadUrl := some u }
        | none => s'
      else s'
    | none => s
  else if strStarts markerName "Largest contentful paint after" &&
      s.lcp.isNone then
    match parseAfterMs markerName with
    | some v => { s with lcp := some v }
    | none => s
  else s

/-- The navigation-metric fields of the `--page-load` result object. -/
structure PageLoadNav where
  url : Option String
  navigationStart : Option ℚ
  load : Option ℚ
  firstContentfulPaint : Option ℚ
  largestContentfulPaint : Option ℚ
deriving DecidableEq, Repr

/-- `getPageLoadSummary`'s marker scan plus the navigation-metric fields of
its result (profiler.ts lines 505-575 and 736-741):
`load` becomes relative to `navigationStart` when both were found. -/
def getPageLoadNav (st : StringTable) (markers : List Marker) : PageLoadNav :=
  let s := markers.foldl (plStep st) ⟨none, none, none, none, none, []⟩
  ⟨s.loadUrl, s.navigationStart,
   (match s.load, s.navigationStart with
    | some l, some n => some (l - n)
    | _, _ => none),
   s.fcp, s.lcp⟩

/-! ## Network resources (`--network`) -/

/-- `ALL_NETWORK_PHASES_IN_ORDER` (profiler.ts lines 820-832). -/
def allNetworkPhasesInOrder : List String :=
  ["startTime", "domainLookupStart", "domainLookupEnd", "connectStart",
   "tcpConnectEnd", "secureConnectionStart", "connectEnd", "requestStart",
   "responseStart", "responseEnd", "endTime"]

/-- `HUMAN_LABEL_FOR_PHASE` (profiler.ts lines 834-846). -/
def humanLabelForPhase (p : String) : String :=
  if p = "startTime" then "Waiting for socket thread"
  else if p = "domainLookupStart" then "DNS request"
  else if p = "domainLookupEnd" then "After DNS request"
  else if p = "connectStart" then "TCP connection"
  else if p = "tcpConnectEnd" then "After TCP connection"
  else if p = "secureConnectionStart" then "Establishing TLS session"
  else if p = "connectEnd" then "Waiting for HTTP request"
  else if p = "requestStart" then "HTTP request and waiting for response"
  else if p = "responseStart" then "HTTP response"
  else if p = "responseEnd" then "Waiting for main thread"
  else if p = "endTime" then "End"
  else ""

/-- `data[phase]` for the eleven network phase keys. -/
def phaseField (d : MarkerData) (p : String) : Option ℚ :=
  if p = "startTime" then d.phaseStartTime
  else if p = "domainLookupStart" then d.phaseDomainLookupStart
  else if p = "domainLookupEnd" then d.phaseDomainLookupEnd
  else if p = "connectStart" then d.phaseConnectStart
  else if p = "tcpConnectEnd" then d.phaseTcpConnectEnd
  else if p = "secureConnectionStart" then d.phaseSecureConnectionStart
  else if p = "connectEnd" then d.phaseConnectEnd
  else if p = "requestStart" then d.phaseRequestStart
  else if p = "responseStart" then d.phaseResponseStart
  else if p = "responseEnd" then d.phaseResponseEnd
  else if p = "endTime" then d.phaseEndTime
  else none

/-- `availablePhases` (profiler.ts lines 848-853): the phase keys present as
numbers, with their timestamps, in the fixed order. -/
def availablePhases (d : MarkerData) : List (String × ℚ) :=
  allNetworkPhasesInOrder.filterMap fun p => (phaseField d p).map fun v => (p, v)

/-- One labeled phase duration (types.ts `NetworkPhase`). -/
structure NetworkPhase where
  label : String
  duration : ℚ
deriving DecidableEq, Repr

/-- The `for (let j = 1; ...)` loop of profiler.ts lines 855-864: consecutive
differences of the available timestamps, labeled by the earlier phase. -/
def consecPhases : List (String × ℚ) → List NetworkPhase
  | a :: b :: rest =>
    ⟨humanLabelForPhase a.1, b.2 - a.2⟩ :: consecPhases (b :: rest)
  | _ => []

/-- One network resource of the `--network` output
(types.ts `NetworkResourceTiming`). -/
structure NetworkResourceTiming where
  url : String
  startTime : ℚ
  duration : ℚ
  status : String
  contentType : Option String
  size : Option ℚ
  httpVersion : Option String
  cache : String
  phases : List NetworkPhase
deriving DecidableEq, Repr

/-- The guard of `getNetworkResources`'s loop:
`marker.data && marker.data.type === "Network" && marker.data.status === "STATUS_STOP"`. -/
def isNetworkStop (m : Marker) : Bool :=
  match m.data with
  | none => false
  | some d => (d.dtype == some "Network") && (d.status == some "STATUS_STOP")

/-- The resource object built for one network marker
(profiler.ts lines 815-881), given the already-found `navigationStart`. -/
def mkNetResource (nav : Option ℚ) (m : Marker) : NetworkResourceTiming :=
  let d := m.data.getD MarkerData.empty
  let startv := jsOr m.start 0
  let endv := jsOr m.stop startv
  ⟨jsOrStr d.uri "",
   (match nav with | some n => startv - n | none => startv),
   endv - startv,
   jsOrStr d.status "",
   d.contentType,
   d.count,
   d.httpVersion,
   jsOrStr d.cache "Unknown",
   consecPhases (availablePhases d)⟩

/-- `obj[k] = (obj[k] || 0) + v` on an insertion-ordered association list. -/
def addTotal (acc : List (String × ℚ)) (k : String) (v : ℚ) :
    List (String × ℚ) :=
  match acc with
  | [] => [(k, v)]
  | (k', x) :: rest =>
    if k' = k then (k', x + v) :: rest
    else (k', x) :: addTotal rest k v

/-- `obj[k] = (obj[k] || 0) + 1` on an insertion-ordered association list. -/
def addCount (acc : List (String × Nat)) (k : String) : List (String × Nat) :=
  match acc with
  | [] => [(k, 1)]
  | (k', x) :: rest =>
    if k' = k then (k', x + 1) :: rest
    else (k', x) :: addCount rest k

/-- The accumulators of `getNetworkResources`'s main loop. -/
structure NetAcc where
  resources : List NetworkResourceTiming
  phaseTotals : List (String × ℚ)
  cacheStats : List (String × Nat)
deriving DecidableEq, Repr

/-- One iteration of `getNetworkResources`'s main loop
(profiler.ts lines 811-883). -/
def netStep (nav : Option ℚ) (acc : NetAcc) (m : Marker) : NetAcc :=
  if isNetworkStop m then
    let r := mkNetResource nav m
    ⟨acc.resources ++ [r],
     r.phases.foldl (fun t p => addTotal t p.label p.duration) acc.phaseTotals,
     addCount acc.cacheStats (jsOrStr (m.data.getD MarkerData.empty).cache "Unknown")⟩
  else acc

/-- The `navigationStart` scan of `getNetworkResources`
(profiler.ts lines 787-805): first marker resolving to `Navigation::Start`,
with `break`. -/
def findNavStart (st : StringTable) : List Marker → Option ℚ
  | [] => none
  | m :: rest =>
    if networkMarkerName st m == "Navigation::Start" then
      some (markerStartVal m)
    else findNavStart st rest

/-- The `--network` output object (types.ts `NetworkResourceSummary`). -/
structure NetworkResourceSummary where
  resources : List NetworkResourceTiming
  totalResources : Nat
  phaseTotals : List (String × ℚ)
  cacheStats : List (String × Nat)
deriving DecidableEq, Repr

/-- Comparator for `resources.sort((a, b) => a.startTime - b.startTime)`. -/
def startAscLe (a b : NetworkResourceTiming) : Bool :=
  decide (a.startTime ≤ b.startTime)

/-- `getNetworkResources`'s extraction script (profiler.ts lines 783-891). -/
def getNetworkResources (st : StringTable) (markers : List Marker) :
    NetworkResourceSummary :=
  let nav := findNavStart st markers
  let acc := markers.foldl (netStep nav) ⟨[], [], []⟩
  ⟨acc.resources.mergeSort startAscLe, acc.resources.length,
   acc.phaseTotals, acc.cacheStats⟩

/-! ## Detailed call-path rendering (`--calltree --detailed`) -/

/-- Comparator for `callPaths.sort((a, b) => b.samples - a.samples)`. -/
def samplesDescLe (a b : CallPath) : Bool := decide (b.samples ≤ a.samples)

/-- One printed call-path block: the stack lines in print order (the path's
stack reversed, root at the bottom) and the path's sample count. -/
structure PathBlock where
  stackLines : List String
  samples : ℚ
deriving DecidableEq, Repr

/-- The `--detailed` printing logic for one function's call paths
(index.ts lines 419-446): paths sorted by samples descending, at most
`maxPaths` shown with reversed stacks, and when any are omitted a trailing
summary with the omitted count and the omitted paths' total samples. -/
def renderCallPaths (callPaths : List CallPath) (maxPaths : Nat) :
    List PathBlock × Option (Nat × ℚ) :=
  let sortedPaths := callPaths.mergeSort samplesDescLe
  let pathsToShow := sortedPaths.take maxPaths
  let blocks := pathsToShow.map fun p => (⟨p.stack.reverse, p.samples⟩ : PathBlock)
  let remainingPaths := sortedPaths.length - pathsToShow.length
  (blocks,
   if 0 < remainingPaths then
     some (remainingPaths,
       (sortedPaths.drop pathsToShow.length).foldl (fun s p => s + p.samples) 0)
   else none)

/-! ## CLI argument gating (index.ts lines 61-307) -/

/-- What the CLI does after parsing: exit with a status, or go on to launch
the browser. -/
inductive CliOutcome where
  | exit (code : Nat)
  | launch
deriving DecidableEq, Repr

/-- The parsed arguments the gating code reads.  `hasTopMarkersFlag` and
`hasFlamegraphFlag` model `process.argv.includes(...)` (flag presence, even
without a value). -/
structure Argv where
  positional : List String
  ai : Bool
  calltree : Option ℚ
  focusMarker : Option String
  hasTopMarkersFlag : Bool
  hasFlamegraphFlag : Bool
  pageLoad : Bool
  network : Bool
deriving DecidableEq, Repr

/-- `!argv._[0]`, inverted: a truthy first positional argument. -/
def truthyHeadPos (l : List String) : Bool :=
  match l with
  | [] => false
  | s :: _ => !s.isEmpty

/-- `argv._.length > 1 && typeof argv._[1] === 'string' && argv._[1].startsWith('-')`. -/
def secondPosDash (l : List String) : Bool :=
  match l with
  | _ :: s :: _ => s.startsWith "-"
  | _ => false

/-- `optionCount` (index.ts line 301): entries of
`[argv.calltree, hasTopMarkersFlag, hasFlamegraphFlag, argv.pageLoad,
argv.network]` that are neither `undefined` nor `false` (a given
`--calltree 0` still counts). -/
def optionCount (a : Argv) : Nat :=
  [a.calltree.isSome, a.hasTopMarkersFlag, a.hasFlamegraphFlag, a.pageLoad,
   a.network].countP id

/-- The CLI's pre-launch gating (index.ts lines 61-307), in source order:
the `--ai` documentation exit, the missing-URL exit, the malformed
`--focus-marker` exit, the no-analysis-mode exit, and the
multiple-analysis-modes exit; otherwise the browser is launched. -/
def cliGate (a : Argv) : CliOutcome :=
  if a.ai then .exit 0
  else if !truthyHeadPos a.positional then .exit 1
  else if (a.focusMarker == some "") ||
      (a.focusMarker == none && decide (1 < a.positional.length) &&
        secondPosDash a.positional) then .exit 1
  else if !truthyQ a.calltree && !a.hasTopMarkersFlag && !a.hasFlamegraphFlag &&
      !a.pageLoad && !a.network then .exit 1
  else if 1 < optionCount a then .exit 1
  else .launch

/-! ## Page-operation traces

Each extraction function is, at the page level, a fixed sequence of
operations; we record that sequence to state the readiness-gating claim. -/

/-- One page-level operation of an extraction function. -/
inductive PageOp where
  | goto
  | waitDataLoaded
  | waitSymbolicated
  | uiAction
  | extractScript
  | sleep
  | closePage
deriving DecidableEq, Repr

/-- Operations that touch the profiler app's state: dispatching UI actions
or evaluating a data-extraction script. -/
def PageOp.touchesApp : PageOp → Bool
  | .uiAction => true
  | .extractScript => true
  | _ => false

/-- Scan a trace with flags recording whether the `DATA_LOADED` wait and the
symbolication wait have completed; fail on any app-touching operation
before both. -/
def gatedFrom (p s : Bool) : List PageOp → Bool
  | [] => true
  | op :: rest =>
    if op.touchesApp && !(p && s) then false
    else gatedFrom (p || op == .waitDataLoaded) (s || op == .waitSymbolicated) rest

/-- No UI action is dispatched and no extraction script is evaluated before
both readiness waits have completed. -/
def readyGated (tr : List PageOp) : Bool := gatedFrom false false tr

/-- The page-operation trace of `getCallTreeData`
(profiler.ts lines 20-195). -/
def callTreeTrace (hasFocusFunction hasMarkerTransform : Bool) : List PageOp :=
  [.goto, .waitDataLoaded, .waitSymbolicated, .uiAction, .sleep]
  ++ (if hasFocusFunction then [.uiAction, .sleep] else [])
  ++ (if hasMarkerTransform then [.uiAction, .sleep] else [])
  ++ (if !hasFocusFunction && !hasMarkerTransform then [.sleep] else [])
  ++ [.extractScript, .closePage]

/-- The page-operation trace of `getMarkerSummary`
(profiler.ts lines 215-295). -/
def markerSummaryTrace : List PageOp :=
  [.goto, .waitDataLoaded, .waitSymbolicated, .extractScript, .closePage]

/-- The page-operation trace of `getFlamegraphData`
(profiler.ts lines 312-472). -/
def flamegraphTrace (hasFocusFunction hasMarkerTransform : Bool) : List PageOp :=
  [.goto, .waitDataLoaded, .waitSymbolicated, .uiAction, .sleep]
  ++ (if hasFocusFunction then [.uiAction, .sleep] else [])
  ++ (if hasMarkerTransform then [.uiAction, .sleep] else [])
  ++ (if !hasFocusFunction && !hasMarkerTransform then [.sleep] else [])
  ++ [.extractScript, .closePage]

/-- The page-operation trace of `getPageLoadSummary`
(profiler.ts lines 486-750). -/
def pageLoadTrace : List PageOp :=
  [.goto, .waitDataLoaded, .waitSymbolicated, .extractScript, .closePage]

/-- The page-operation trace of `getNetworkResources`
(profiler.ts lines 764-893). -/
def networkTrace : List PageOp :=
  [.goto, .waitDataLoaded, .waitSymbolicated, .extractScript, .closePage]

/-- The page-operation trace of `annotateFunction` (annotation module): it
opens the page, performs the two readiness waits, dispatches the
inverted-call-tree setup, sleeps, evaluates the call-tree search, and then
continues with operations that depend on the search and extraction results
(`rest`). -/
def annotateTrace (rest : List PageOp) : List PageOp :=
  [.goto, .waitDataLoaded, .waitSymbolicated, .uiAction, .sleep,
   .extractScript] ++ rest

/-! ## `annotateFunction`'s call-tree search (annotation module) -/

/-- The outcome of `annotateFunction`'s search-and-gate phase: the search
error reported (if any), whether the page was closed, and whether the
native-symbol/assembly/source extraction phase was entered. -/
structure AnnotateOutcome where
  searchError : Option String
  pageClosed : Bool
  extractionAttempted : Bool
deriving DecidableEq, Repr

/-- The annotation modes of `annotateFunction`. -/
inductive AnnotateMode where
  | asm
  | src
  | all
deriving DecidableEq, Repr

/-- The root-scan of `annotateFunction`'s search script:
`nodeData && nodeData.funcName === functionName` on each root in order. -/
def findAnnotateRoot (functionName : String) : List CTree → Option NodeData
  | [] => none
  | t :: rest =>
    match t.nd with
    | some d =>
      if d.funcName == some functionName then some d
      else findAnnotateRoot functionName rest
    | none => findAnnotateRoot functionName rest

/-- `annotateFunction`'s search script result (annotation module lines
1029-1058): an error object when the call tree is empty or no root matches,
the found node's data otherwise. -/
def annotateSearch (roots : List CTree) (functionName : String) :
    Option String :=
  if roots.isEmpty then some "No call tree data available"
  else
    match findAnnotateRoot functionName roots with
    | some _ => none
    | none =>
      some ("Function \"" ++ functionName ++ "\" not found in call tree")

/-- The observable outcome of `annotateFunction` after the search phase
(annotation module lines 1060-1083 and the final `page.close()`): on a
search error it reports the error, closes the page and returns without any
extraction; otherwise it proceeds to the native-symbol extraction (for every
mode) and eventually closes the page. -/
def annotateRun (roots : List CTree) (functionName : String)
    (_mode : AnnotateMode) : AnnotateOutcome :=
  match annotateSearch roots functionName with
  | some msg => ⟨some msg, true, false⟩
  | none => ⟨none, true, true⟩

/-! ## Support definitions for the statements of the claims -/

/-- Lookup in an insertion-ordered association list. -/
def alookup {α : Type} : List (String × α) → String → Option α
  | [], _ => none
  | (k, v) :: rest, key => if k = key then some v else alookup rest key

/-- The resource `getNetworkResources` builds for a marker, `none` for
markers its guard rejects. -/
def netMarkerResource (nav : Option ℚ) (m : Marker) :
    Option NetworkResourceTiming :=
  if isNetworkStop m then some (mkNetResource nav m) else none

/-- A flame-node list is sorted by `totalTime` in descending order. -/
def totalsSortedDesc : List FlameNode → Bool
  | [] => true
  | [_] => true
  | a :: b :: r => decide (b.totalTime ≤ a.totalTime) && totalsSortedDesc (b :: r)

/-- Every children list in the flame tree is sorted by `totalTime` in
descending order. -/
def FlameNode.wellSorted (f : FlameNode) : Bool :=
  match f with
  | .mk _ _ _ cs => totalsSortedDesc cs && cs.attach.all fun c => c.1.wellSorted
termination_by sizeOf f
decreasing_by
  have := List.sizeOf_lt_of_mem c.2
  simp only [FlameNode.mk.sizeOf_spec]
  omega

/-- Every node of the flame tree sits at a depth strictly below `n`, the
tree's own root being at depth 0. -/
def FlameNode.heightLe (f : FlameNode) (n : Nat) : Bool :=
  match f, n with
  | _, 0 => false
  | .mk _ _ _ cs, k + 1 => cs.attach.all fun c => c.1.heightLe k
termination_by sizeOf f
decreasing_by
  have := List.sizeOf_lt_of_mem c.2
  simp only [FlameNode.mk.sizeOf_spec]
  omega

/-- A call-tree root matches `annotateFunction`'s search
(`nodeData && nodeData.funcName === functionName`). -/
def rootMatches (functionName : String) (t : CTree) : Bool :=
  match t.nd with
  | some d => d.funcName == some functionName
  | none => false

/-- Induction over the nested call-tree type. -/
theorem ctreeInductionOn {P : CTree → Prop}
    (h : ∀ nd cs, (∀ c ∈ cs, P c) → P (.node nd cs)) : ∀ t, P t
  | .node nd cs => h nd cs fun c hc =>
      have := List.sizeOf_lt_of_mem hc
      ctreeInductionOn h c
termination_by t => sizeOf t
decreasing_by
  simp only [CTree.node.sizeOf_spec]
  omega

/-! ## General lemmas -/

theorem pairwise_mergeSort_desc {α : Type} {β : Type} [LinearOrder β]
    (f : α → β) (l : List α) :
    (l.mergeSort fun a b => decide (f b ≤ f a)).Pairwise fun a b =>
      f b ≤ f a := by
  have h := @List.sorted_mergeSort _ (fun a b => decide (f b ≤ f a))
    (fun a b c hab hbc => by
      simp only [decide_eq_true_eq] at *
      exact le_trans hbc hab)
    (fun a b => by
      simp only [Bool.or_eq_true, decide_eq_true_eq]
      exact le_total (f b) (f a)) l
  exact h.imp fun h' => of_decide_eq_true h'

theorem pairwise_mergeSort_asc {α : Type} {β : Type} [LinearOrder β]
    (f : α → β) (l : List α) :
    (l.mergeSort fun a b => decide (f a ≤ f b)).Pairwise fun a b =>
      f a ≤ f b := by
  have h := @List.sorted_mergeSort _ (fun a b => decide (f a ≤ f b))
    (fun a b c hab hbc => by
      simp only [decide_eq_true_eq] at *
      exact le_trans hab hbc)
    (fun a b => by
      simp only [Bool.or_eq_true, decide_eq_true_eq]
      exact le_total (f a) (f b)) l
  exact h.imp fun h' => of_decide_eq_true h'

/-! ## C10: the three marker-name resolutions agree -/

/-- C10: `getMarkerSummary`, `getPageLoadSummary` and `getNetworkResources`
resolve a marker's display name by the same function of the marker and the
string table: `marker.name` unless `marker.data` exists and
`marker.data.name` is defined, in which case `marker.data.name` itself when
it is not a number and `stringTable.getString(marker.data.name)` when it
is. -/
theorem markerName_resolutions_agree (st : StringTable) (m : Marker) :
    markerSummaryName st m = resolveMarkerNameSpec st m ∧
    pageLoadMarkerName st m = resolveMarkerNameSpec st m ∧
    networkMarkerName st m = resolveMarkerNameSpec st m := by
  obtain ⟨n, s, e, s2, d⟩ := m
  refine ⟨?_, ?_, ?_⟩ <;>
  · cases d with
    | none => rfl
    | some dd =>
      cases hdn : dd.dataName with
      | none =>
        simp [markerSummaryName, pageLoadMarkerName, networkMarkerName,
          resolveMarkerNameSpec, hdn]
      | some v =>
        cases v <;>
        simp [markerSummaryName, pageLoadMarkerName, networkMarkerName,
          resolveMarkerNameSpec, hdn]

/-! ## C6: readiness gating of every extraction trace -/

theorem gatedFrom_true_true : ∀ tr : List PageOp, gatedFrom true true tr = true := by
  intro tr
  induction tr with
  | nil => rfl
  | cons op rest ih => simp [gatedFrom, ih]

/-- C6: for every extraction operation (call tree, marker summary,
flamegraph, page load, network resources, function annotation), no UI action
is dispatched and no data-extraction script is evaluated in the page before
both readiness waits — app view phase `DATA_LOADED` and symbolication status
`DONE` — have completed. -/
theorem extraction_traces_ready_gated (hasFocusFunction hasMarkerTransform
    hasFocusFunction2 hasMarkerTransform2 : Bool) (rest : List PageOp) :
    readyGated (callTreeTrace hasFocusFunction hasMarkerTransform) = true ∧
    readyGated markerSummaryTrace = true ∧
    readyGated (flamegraphTrace hasFocusFunction2 hasMarkerTransform2) = true ∧
    readyGated pageLoadTrace = true ∧
    readyGated networkTrace = true ∧
    readyGated (annotateTrace rest) = true := by
  refine ⟨?_, by decide, ?_, by decide, by decide, ?_⟩
  · cases hasFocusFunction <;> cases hasMarkerTransform <;> decide
  · cases hasFocusFunction2 <;> cases hasMarkerTransform2 <;> decide
  · simp [annotateTrace, readyGated, gatedFrom, PageOp.touchesApp,
      gatedFrom_true_true]

/-! ## C8: CLI gating (corrected: the `--ai` branch exits 0 first) -/

/-- C8 counterexample: with `--ai` and no profile URL the CLI exits with
status 0, not 1, so the claim as stated fails at this input. -/
theorem cliGate_ai_counterexample :
    cliGate ⟨[], true, none, none, false, false, false, false⟩ =
      CliOutcome.exit 0 ∧
    CliOutcome.exit 0 ≠ CliOutcome.exit 1 :=
  ⟨rfl, by decide⟩

/-- C8 amended: when `--ai` is not given, the CLI terminates with exit
status 1 before launching any browser whenever the profile URL positional is
missing (or falsy), whenever none of the five analysis modes is specified,
and whenever more than one of them is counted. -/
theorem cliGate_exits_one (a : Argv) (hai : a.ai = false) :
    (truthyHeadPos a.positional = false → cliGate a = CliOutcome.exit 1) ∧
    ((a.calltree = none ∧ a.hasTopMarkersFlag = false ∧
      a.hasFlamegraphFlag = false ∧ a.pageLoad = false ∧ a.network = false) →
      cliGate a = CliOutcome.exit 1) ∧
    (1 < optionCount a → cliGate a = CliOutcome.exit 1) := by
  refine ⟨?_, ?_, ?_⟩
  · intro h
    simp [cliGate, hai, h]
  · rintro ⟨h1, h2, h3, h4, h5⟩
    simp [cliGate, hai, h1, h2, h3, h4, h5, truthyQ]
  · intro h
    simp only [cliGate, hai, Bool.false_eq_true, if_false]
    split_ifs with h1 h2 h3 <;> rfl

/-- C8 amended, witness: `--calltree 1 --network` with a URL exits 1. -/
theorem cliGate_exits_one_witness :
    cliGate ⟨["u"], false, some 1, none, false, false, false, true⟩ =
      CliOutcome.exit 1 :=
  (cliGate_exits_one ⟨["u"], false, some 1, none, false, false, false, true⟩
    rfl).2.2 (by decide)

/-! ## C7: `annotateFunction` when no root matches (corrected: the empty
call tree reports a different error) -/

theorem findAnnotateRoot_eq_none {functionName : String} :
    ∀ {roots : List CTree}, (∀ t ∈ roots, rootMatches functionName t = false) →
      findAnnotateRoot functionName roots = none := by
  intro roots
  induction roots with
  | nil => intro _; rfl
  | cons t rest ih =>
    intro h
    have ht := h t (List.mem_cons_self ..)
    have hrest := ih fun c hc => h c (List.mem_cons_of_mem _ hc)
    cases t with
    | node nd cs =>
      cases nd with
      | none => simpa [findAnnotateRoot, CTree.nd] using hrest
      | some d =>
        simp only [rootMatches, CTree.nd] at ht
        simp [findAnnotateRoot, CTree.nd, ht, hrest]

/-- C7 counterexample: when the call tree has no roots at all (so the
function certainly matches no root), `annotateFunction` reports
`No call tree data available`, not the function-not-found error the claim
names. -/
theorem annotateRun_empty_counterexample :
    (annotateRun [] "f" AnnotateMode.asm).searchError =
      some "No call tree data available" ∧
    "No call tree data available" ≠ "Function \"f\" not found in call tree" :=
  ⟨rfl, by decide⟩

/-- C7 amended: for every mode, when the given function name matches no root
of the inverted call tree by exact `funcName` equality, `annotateFunction`
reports an error, closes the page, and returns without attempting any
assembly or source extraction; the error says the function was not found in
the call tree when the call tree has roots, and that no call-tree data is
available when it has none. -/
theorem annotateRun_no_match (roots : List CTree) (functionName : String)
    (mode : AnnotateMode)
    (hno : ∀ t ∈ roots, rootMatches functionName t = false) :
    (roots ≠ [] →
      annotateRun roots functionName mode =
        ⟨some ("Function \"" ++ functionName ++ "\" not found in call tree"),
         true, false⟩) ∧
    (roots = [] →
      annotateRun roots functionName mode =
        ⟨some "No call tree data available", true, false⟩) := by
  have hfind := findAnnotateRoot_eq_none hno
  constructor
  · intro hne
    have hemp : roots.isEmpty = false := by
      cases roots with
      | nil => exact absurd rfl hne
      | cons _ _ => rfl
    simp [annotateRun, annotateSearch, hemp, hfind]
  · intro hnil
    subst hnil
    rfl

/-- C7 amended, witness: a one-root call tree whose root is `g` and a search
for `f`. -/
theorem annotateRun_no_match_witness :
    annotateRun [CTree.node (some ⟨some "g", none, none⟩) []] "f"
        AnnotateMode.all =
      ⟨some ("Function \"" ++ "f" ++ "\" not found in call tree"),
       true, false⟩ :=
  (annotateRun_no_match [CTree.node (some ⟨some "g", none, none⟩) []] "f"
    AnnotateMode.all (by decide)).1 (List.cons_ne_nil _ _)

/-! ## C9: detailed call-path printing -/

theorem foldl_add_samples (l : List CallPath) :
    l.foldl (fun s p => s + p.samples) 0 = (l.map CallPath.samples).sum := by
  rw [List.sum_eq_foldl, List.foldl_map]

theorem drop_length_take {α : Type} (l : List α) (n : Nat) :
    l.drop ((l.take n).length) = l.drop n := by
  rw [List.length_take]
  rcases le_total n l.length with h | h
  · rw [Nat.min_eq_left h]
  · rw [Nat.min_eq_right h, List.drop_length, List.drop_eq_nil_of_le h]

/-- C9: with `--calltree --detailed`, the call paths of a function are
printed sorted by samples descending, at most `maxPaths` of them appear,
each printed stack is the path's stack reversed (root frame at the bottom),
a trailing summary appears exactly when paths were omitted, and the
summary's sample count is the exact sum of the omitted paths' samples (the
shown samples plus the summary equal the total). -/
theorem renderCallPaths_spec (callPaths : List CallPath) (maxPaths : Nat) :
    (renderCallPaths callPaths maxPaths).1.length ≤ maxPaths ∧
    (renderCallPaths callPaths maxPaths).1.Pairwise
      (fun a b => b.samples ≤ a.samples) ∧
    (∀ b ∈ (renderCallPaths callPaths maxPaths).1,
      ∃ p ∈ callPaths, b.stackLines = p.stack.reverse ∧
        b.samples = p.samples) ∧
    ((renderCallPaths callPaths maxPaths).2 = none ↔
      callPaths.length ≤ maxPaths) ∧
    (∀ k s, (renderCallPaths callPaths maxPaths).2 = some (k, s) →
      k = callPaths.length - maxPaths ∧
      ((renderCallPaths callPaths maxPaths).1.map PathBlock.samples).sum + s =
        (callPaths.map CallPath.samples).sum) := by
  have hperm := List.mergeSort_perm callPaths samplesDescLe
  have hlen : (callPaths.mergeSort samplesDescLe).length = callPaths.length :=
    List.length_mergeSort callPaths
  have hsorted : (callPaths.mergeSort samplesDescLe).Pairwise
      (fun a b => b.samples ≤ a.samples) :=
    pairwise_mergeSort_desc CallPath.samples callPaths
  simp only [renderCallPaths]
  refine ⟨?_, ?_, ?_, ?_, ?_⟩
  · simpa using List.length_take_le maxPaths _
  · exact List.Pairwise.map _ (fun a b h => h)
      (List.Pairwise.sublist (List.take_sublist _ _) hsorted)
  · intro b hb
    obtain ⟨p, hp, rfl⟩ := List.mem_map.mp hb
    exact ⟨p, List.mem_mergeSort.mp (List.mem_of_mem_take hp), rfl, rfl⟩
  · by_cases hc : 0 <
        (callPaths.mergeSort samplesDescLe).length -
          ((callPaths.mergeSort samplesDescLe).take maxPaths).length
    · rw [if_pos hc]
      rw [List.length_take, hlen] at hc
      constructor
      · intro habs
        exact absurd habs (by simp)
      · intro hle
        omega
    · rw [if_neg hc]
      rw [List.length_take, hlen] at hc
      constructor
      · intro _
        omega
      · intro _
        rfl
  · intro k s2 h
    by_cases hc : 0 <
        (callPaths.mergeSort samplesDescLe).length -
          ((callPaths.mergeSort samplesDescLe).take maxPaths).length
    · rw [if_pos hc] at h
      obtain ⟨hk, hs2⟩ := Prod.mk.injEq .. ▸ Option.some_inj.mp h
      constructor
      · rw [← hk, List.length_take, hlen]
        rw [List.length_take, hlen] at hc
        omega
      · rw [← hs2, foldl_add_samples, drop_length_take]
        have hmaps : (((callPaths.mergeSort samplesDescLe).take maxPaths).map
            (fun p => (⟨p.stack.reverse, p.samples⟩ : PathBlock))).map
              PathBlock.samples =
            ((callPaths.mergeSort samplesDescLe).take maxPaths).map
              CallPath.samples := by
          simp only [List.map_map]
          rfl
        rw [hmaps, ← List.sum_append, ← List.map_append,
          List.take_append_drop]
        exact (hperm.map CallPath.samples).sum_eq
    · rw [if_neg hc] at h
      exact absurd h (by simp)

/-- C9 witness: three call paths, `maxPaths = 2`: the summary reports one
omitted path accounting for one sample. -/
theorem renderCallPaths_spec_witness :
    1 = ([⟨["a", "b"], (2 : ℚ)⟩, ⟨["c"], 5⟩, ⟨["d"], 1⟩] :
        List CallPath).length - 2 ∧
    ((renderCallPaths [⟨["a", "b"], (2 : ℚ)⟩, ⟨["c"], 5⟩, ⟨["d"], 1⟩] 2).1.map
        PathBlock.samples).sum + 1 =
      (([⟨["a", "b"], (2 : ℚ)⟩, ⟨["c"], 5⟩, ⟨["d"], 1⟩] :
        List CallPath).map CallPath.samples).sum :=
  (renderCallPaths_spec [⟨["a", "b"], (2 : ℚ)⟩, ⟨["c"], 5⟩, ⟨["d"], 1⟩]
    2).2.2.2.2 1 1
    (by norm_num [renderCallPaths, List.mergeSort, List.merge, samplesDescLe])

/-! ## C1: `--calltree` top functions -/

theorem rootToNode_inv {detailed : Bool} {t : CTree} {n : CallTreeNode}
    (h : rootToNode detailed t = some n) :
    ∃ d, t.nd = some d ∧ truthyStr d.funcName = true ∧
      n.name = d.funcName.getD "" ∧ n.selfTime = jsOr d.self 0 ∧
      n.totalTime = jsOr d.total 0 := by
  obtain ⟨nd, cs⟩ := t
  cases nd with
  | none => exact absurd h (by simp [rootToNode, CTree.nd])
  | some d =>
    cases hfn : d.funcName with
    | none =>
      simp only [rootToNode, CTree.nd, hfn] at h
      exact absurd h (by simp)
    | some fn =>
      simp only [rootToNode, CTree.nd, hfn] at h
      by_cases hemp : fn.isEmpty
      · rw [if_pos hemp] at h
        exact absurd h (by simp)
      · rw [if_neg hemp] at h
        obtain rfl := Option.some_inj.mp h.symm
        exact ⟨d, rfl, by simp [truthyStr, hfn, hemp], by simp [hfn],
          rfl, rfl⟩

/-- C1: for every call-tree state and every `topN`, `getCallTreeData`
returns the valid root nodes (those whose node data has a truthy
`funcName`) of the inverted call tree, as a list sorted by self time
descending and truncated to at most `topN` elements, each node's `selfTime`
and `totalTime` being the node data's `self` and `total` (0 when absent). -/
theorem getCallTreeData_spec (roots : List CTree) (topN : Nat)
    (detailed : Bool) :
    ∃ l : List CallTreeNode,
      l.Perm (roots.filterMap (rootToNode detailed)) ∧
      l.Pairwise (fun a b => b.selfTime ≤ a.selfTime) ∧
      (getCallTreeData roots topN detailed).topNodes = l.take topN ∧
      (getCallTreeData roots topN detailed).topNodes.length ≤ topN ∧
      ∀ n ∈ (getCallTreeData roots topN detailed).topNodes,
        ∃ t ∈ roots, rootToNode detailed t = some n ∧
          ∃ d, t.nd = some d ∧ truthyStr d.funcName = true ∧
            n.name = d.funcName.getD "" ∧
            n.selfTime = jsOr d.self 0 ∧ n.totalTime = jsOr d.total 0 := by
  cases roots with
  | nil =>
    refine ⟨[], by simp, by simp, ?_, ?_, ?_⟩ <;> simp [getCallTreeData]
  | cons r rs =>
    have hdata : getCallTreeData (r :: rs) topN detailed =
        ⟨((r :: rs).filterMap (rootToNode detailed)).length,
         (((r :: rs).filterMap (rootToNode detailed)).mergeSort
           selfDescLe).take topN⟩ := by
      simp [getCallTreeData]
    refine ⟨((r :: rs).filterMap (rootToNode detailed)).mergeSort selfDescLe,
      List.mergeSort_perm _ _,
      pairwise_mergeSort_desc CallTreeNode.selfTime _, by rw [hdata], ?_, ?_⟩
    · rw [hdata]
      simpa using List.length_take_le topN _
    · intro n hn
      rw [hdata] at hn
      have hn' := List.mem_mergeSort.mp (List.mem_of_mem_take hn)
      obtain ⟨t, ht, hteq⟩ := List.mem_filterMap.mp hn'
      exact ⟨t, ht, hteq, rootToNode_inv hteq⟩

/-- C1 witness: two valid roots, `topN = 1`: the larger self time is
returned with its node data's fields. -/
theorem getCallTreeData_spec_witness :
    ∃ t ∈ [CTree.node (some ⟨some "f", some 3, some 10⟩) [],
           CTree.node (some ⟨some "g", some 7, some 9⟩) []],
      rootToNode false t = some ⟨"g", 7, 9, ["g"], none⟩ ∧
      ∃ d, t.nd = some d ∧ truthyStr d.funcName = true ∧
        (⟨"g", 7, 9, ["g"], none⟩ : CallTreeNode).name = d.funcName.getD "" ∧
        (⟨"g", 7, 9, ["g"], none⟩ : CallTreeNode).selfTime = jsOr d.self 0 ∧
        (⟨"g", 7, 9, ["g"], none⟩ : CallTreeNode).totalTime =
          jsOr d.total 0 := by
  have h := (getCallTreeData_spec
    [CTree.node (some ⟨some "f", some 3, some 10⟩) [],
     CTree.node (some ⟨some "g", some 7, some 9⟩) []] 1 false)
  obtain ⟨l, -, -, -, -, hmem⟩ := h
  refine hmem ⟨"g", 7, 9, ["g"], none⟩ ?_
  norm_num [getCallTreeData, rootToNode, CTree.nd, jsOr, selfDescLe,
    List.mergeSort, List.merge, List.filterMap_cons,
    show "f".isEmpty = false from rfl, show "g".isEmpty = false from rfl]

/-! ## C2: marker summaries -/

theorem alookup_pushDuration (acc : List (String × List ℚ))
    (name key : String) (d : ℚ) :
    alookup (pushDuration acc name d) key =
      if key = name then some ((alookup acc name).getD [] ++ [d])
      else alookup acc key := by
  induction acc with
  | nil =>
    by_cases h : key = name
    · subst h
      simp [pushDuration, alookup]
    · have h2 : ¬name = key := fun h' => h h'.symm
      simp [pushDuration, alookup, h, h2]
  | cons p rest ih =>
    obtain ⟨k, ds⟩ := p
    by_cases hk : k = name
    · subst hk
      by_cases hkey : key = k
      · subst hkey
        simp [pushDuration, alookup]
      · have hkey2 : ¬k = key := fun h' => hkey h'.symm
        simp [pushDuration, alookup, hkey, hkey2]
    · have hk2 : ¬name = k := fun h' => hk h'.symm
      by_cases hkey : key = k
      · subst hkey
        simp [pushDuration, alookup, hk, hk2]
      · have hkey2 : ¬k = key := fun h' => hkey h'.symm
        simp [pushDuration, alookup, hk, hkey2, ih]

theorem mem_keys_pushDuration (acc : List (String × List ℚ))
    (name : String) (d : ℚ) (x : String) :
    x ∈ (pushDuration acc name d).map Prod.fst ↔
      x ∈ acc.map Prod.fst ∨ x = name := by
  induction acc with
  | nil => simp [pushDuration]
  | cons p rest ih =>
    obtain ⟨k, ds⟩ := p
    by_cases hk : k = name
    · subst hk
      simp [pushDuration]
      intro h
      exact Or.inl h
    · simp [pushDuration, hk, ih]
      tauto

theorem nodup_keys_pushDuration (acc : List (String × List ℚ))
    (name : String) (d : ℚ) (h : (acc.map Prod.fst).Nodup) :
    ((pushDuration acc name d).map Prod.fst).Nodup := by
  induction acc with
  | nil => simp [pushDuration]
  | cons p rest ih =>
    obtain ⟨k, ds⟩ := p
    simp only [List.map_cons, List.nodup_cons] at h
    by_cases hk : k = name
    · subst hk
      simpa [pushDuration] using h
    · simp only [pushDuration, if_neg hk, List.map_cons, List.nodup_cons]
      refine ⟨?_, ih h.2⟩
      rw [mem_keys_pushDuration]
      rintro (hmem | rfl)
      · exact h.1 hmem
      · exact hk rfl

theorem groupedDurations_cons (st : StringTable) (m : Marker)
    (ms : List Marker) (key : String) :
    groupedDurations st (m :: ms) key =
      (if countedMarker m && (markerSummaryName st m == key) then
        [markerDuration m] else []) ++ groupedDurations st ms key := by
  simp only [groupedDurations, List.filter_cons]
  split <;> simp

theorem markerStats_go (st : StringTable) (markers : List Marker) :
    ∀ (acc : List (String × List ℚ)) (key : String),
      (alookup (markers.foldl
        (fun acc m =>
          if countedMarker m then
            pushDuration acc (markerSummaryName st m) (markerDuration m)
          else acc) acc) key).getD [] =
        (alookup acc key).getD [] ++ groupedDurations st markers key ∧
      (alookup (markers.foldl
        (fun acc m =>
          if countedMarker m then
            pushDuration acc (markerSummaryName st m) (markerDuration m)
          else acc) acc) key).isSome =
        ((alookup acc key).isSome ||
          !(groupedDurations st markers key).isEmpty) := by
  induction markers with
  | nil => intro acc key; simp [groupedDurations]
  | cons m ms ih =>
    intro acc key
    simp only [List.foldl_cons]
    by_cases hc : countedMarker m
    · rw [if_pos hc]
      obtain ⟨ih1, ih2⟩ :=
        ih (pushDuration acc (markerSummaryName st m) (markerDuration m)) key
      rw [ih1, ih2, alookup_pushDuration, groupedDurations_cons, hc]
      by_cases hname : markerSummaryName st m == key
      · have hname' : key = markerSummaryName st m := (beq_iff_eq.mp hname).symm
        rw [if_pos hname', hname']
        simp [hname]
      · have hname' : ¬(key = markerSummaryName st m) := by
          intro h'
          exact hname (beq_iff_eq.mpr h'.symm)
        rw [if_neg hname']
        simp only [Bool.true_and]
        rw [if_neg (by simpa using hname)]
        simp
    · rw [if_neg hc]
      obtain ⟨ih1, ih2⟩ := ih acc key
      rw [ih1, ih2, groupedDurations_cons]
      rw [if_neg (by simp [hc])]
      simp

theorem fold_markerStats_nodup (st : StringTable) (markers : List Marker) :
    ∀ acc : List (String × List ℚ), (acc.map Prod.fst).Nodup →
      ((markers.foldl
        (fun acc m =>
          if countedMarker m then
            pushDuration acc (markerSummaryName st m) (markerDuration m)
          else acc) acc).map Prod.fst).Nodup := by
  induction markers with
  | nil => intro acc h; exact h
  | cons m ms ih =>
    intro acc h
    simp only [List.foldl_cons]
    by_cases hc : countedMarker m
    · rw [if_pos hc]
      exact ih _ (nodup_keys_pushDuration _ _ _ h)
    · rw [if_neg hc]
      exact ih _ h

theorem alookup_eq_of_mem {α : Type} {l : List (String × α)} {p : String × α}
    (hnd : (l.map Prod.fst).Nodup) (hp : p ∈ l) : alookup l p.1 = some p.2 := by
  induction l with
  | nil => cases hp
  | cons q rest ih =>
    obtain ⟨k, v⟩ := q
    simp only [List.map_cons, List.nodup_cons] at hnd
    rcases List.mem_cons.mp hp with rfl | hp'
    · simp [alookup]
    · have hne : k ≠ p.1 := by
        intro h'
        exact hnd.1 (h' ▸ List.mem_map_of_mem Prod.fst hp')
      simp [alookup, hne, ih hnd.2 hp']

theorem countP_key_eq_one {α : Type} :
    ∀ (l : List (String × α)) (key : String), (l.map Prod.fst).Nodup →
      (alookup l key).isSome = true →
      l.countP (fun p => p.1 == key) = 1 := by
  intro l
  induction l with
  | nil => intro key _ h; simp [alookup] at h
  | cons q rest ih =>
    intro key hnd hs
    obtain ⟨k, v⟩ := q
    simp only [List.map_cons, List.nodup_cons] at hnd
    by_cases hk : k = key
    · subst hk
      have hzero : rest.countP (fun p => p.1 == k) = 0 := by
        rw [List.countP_eq_zero]
        intro p hp hbeq
        exact hnd.1 (beq_iff_eq.mp hbeq ▸ List.mem_map_of_mem Prod.fst hp)
      simp [List.countP_cons, hzero]
    · have hs' : (alookup rest key).isSome = true := by
        simpa [alookup, hk] using hs
      have hne : ((k, v).1 == key) = false := by
        simpa using hk
      simp [List.countP_cons, hne, ih key hnd.2 hs']

theorem foldl_min_le_init : ∀ (xs : List ℚ) (a : ℚ), xs.foldl min a ≤ a := by
  intro xs
  induction xs with
  | nil => intro a; simp
  | cons x xs ih =>
    intro a
    exact le_trans (ih (min a x)) (min_le_left a x)

theorem foldl_min_le_mem :
    ∀ (xs : List ℚ) (a x : ℚ), x ∈ xs → xs.foldl min a ≤ x := by
  intro xs
  induction xs with
  | nil => intro a x h; cases h
  | cons y ys ih =>
    intro a x h
    rcases List.mem_cons.mp h with rfl | h'
    · exact le_trans (foldl_min_le_init ys (min a x)) (min_le_right a x)
    · exact ih (min a y) x h'

theorem foldl_min_cases :
    ∀ (xs : List ℚ) (a : ℚ), xs.foldl min a = a ∨ xs.foldl min a ∈ xs := by
  intro xs
  induction xs with
  | nil => intro a; exact Or.inl rfl
  | cons y ys ih =>
    intro a
    rcases ih (min a y) with h | h
    · rcases min_choice a y with hm | hm
      · exact Or.inl (h.trans hm)
      · right
        rw [List.foldl_cons, h, hm]
        exact List.mem_cons_self ..
    · exact Or.inr (List.mem_cons_of_mem _ h)

theorem listMin_mem (l : List ℚ) (h : l ≠ []) : listMin l ∈ l := by
  cases l with
  | nil => exact absurd rfl h
  | cons x xs =>
    rcases foldl_min_cases xs x with h' | h'
    · rw [listMin, h']
      exact List.mem_cons_self ..
    · rw [listMin]
      exact List.mem_cons_of_mem _ h'

theorem listMin_le_mem (l : List ℚ) (d : ℚ) (hd : d ∈ l) : listMin l ≤ d := by
  cases l with
  | nil => cases hd
  | cons x xs =>
    rcases List.mem_cons.mp hd with rfl | h'
    · exact foldl_min_le_init xs d
    · exact foldl_min_le_mem xs x d h'

theorem foldl_max_le_init : ∀ (xs : List ℚ) (a : ℚ), a ≤ xs.foldl max a := by
  intro xs
  induction xs with
  | nil => intro a; simp
  | cons x xs ih =>
    intro a
    exact le_trans (le_max_left a x) (ih (max a x))

theorem foldl_max_le_mem :
    ∀ (xs : List ℚ) (a x : ℚ), x ∈ xs → x ≤ xs.foldl max a := by
  intro xs
  induction xs with
  | nil => intro a x h; cases h
  | cons y ys ih =>
    intro a x h
    rcases List.mem_cons.mp h with rfl | h'
    · exact le_trans (le_max_right a x) (foldl_max_le_init ys (max a x))
    · exact ih (max a y) x h'

theorem foldl_max_cases :
    ∀ (xs : List ℚ) (a : ℚ), xs.foldl max a = a ∨ xs.foldl max a ∈ xs := by
  intro xs
  induction xs with
  | nil => intro a; exact Or.inl rfl
  | cons y ys ih =>
    intro a
    rcases ih (max a y) with h | h
    · rcases max_choice a y with hm | hm
      · exact Or.inl (h.trans hm)
      · right
        rw [List.foldl_cons, h, hm]
        exact List.mem_cons_self ..
    · exact Or.inr (List.mem_cons_of_mem _ h)

theorem listMax_mem (l : List ℚ) (h : l ≠ []) : listMax l ∈ l := by
  cases l with
  | nil => exact absurd rfl h
  | cons x xs =>
    rcases foldl_max_cases xs x with h' | h'
    · rw [listMax, h']
      exact List.mem_cons_self ..
    · rw [listMax]
      exact List.mem_cons_of_mem _ h'

theorem listMax_ge_mem (l : List ℚ) (d : ℚ) (hd : d ∈ l) : d ≤ listMax l := by
  cases l with
  | nil => cases hd
  | cons x xs =>
    rcases List.mem_cons.mp hd with rfl | h'
    · exact foldl_max_le_init xs d
    · exact foldl_max_le_mem xs x d h'

/-- C2: `getMarkerSummary` groups exactly the markers with a truthy start, a
truthy end and a strictly positive duration, keyed by resolved marker name;
each group's summary carries the group's count, total, average (total over
count), minimum and maximum durations; and the summaries are sorted by count
descending. -/
theorem getMarkerSummary_spec (st : StringTable) (markers : List Marker) :
    (getMarkerSummary st markers).Pairwise (fun a b => b.count ≤ a.count) ∧
    (∀ s ∈ getMarkerSummary st markers,
      groupedDurations st markers s.name ≠ [] ∧
      s.count = (groupedDurations st markers s.name).length ∧
      s.totalDuration = (groupedDurations st markers s.name).sum ∧
      s.avgDuration = s.totalDuration / (s.count : ℚ) ∧
      s.minDuration ∈ groupedDurations st markers s.name ∧
      (∀ d ∈ groupedDurations st markers s.name, s.minDuration ≤ d) ∧
      s.maxDuration ∈ groupedDurations st markers s.name ∧
      (∀ d ∈ groupedDurations st markers s.name, d ≤ s.maxDuration)) ∧
    (∀ name, groupedDurations st markers name ≠ [] →
      (getMarkerSummary st markers).countP (fun s => s.name == name) = 1) := by
  have hnodup : ((markerStats st markers).map Prod.fst).Nodup :=
    fold_markerStats_nodup st markers [] (by simp)
  refine ⟨pairwise_mergeSort_desc MarkerSummary.count _, ?_, ?_⟩
  · intro s hs
    have hs' := List.mem_mergeSort.mp hs
    obtain ⟨p, hp, rfl⟩ := List.mem_map.mp hs'
    have hlook := alookup_eq_of_mem hnodup hp
    obtain ⟨hval, hsome⟩ := markerStats_go st markers [] p.1
    have hms : markerStats st markers = List.foldl
        (fun acc m =>
          if countedMarker m then
            pushDuration acc (markerSummaryName st m) (markerDuration m)
          else acc) [] markers := rfl
    rw [← hms] at hval hsome
    rw [hlook] at hval hsome
    simp only [alookup, Option.getD_some, Option.getD_none,
      List.nil_append] at hval
    have hgrp : groupedDurations st markers (mkSummary p).name = p.2 := by
      simp only [mkSummary]
      exact hval.symm
    have hne : p.2 ≠ [] := by
      intro habs
      rw [habs] at hval
      simp only [alookup, Option.isSome_some, Option.isSome_none,
        Bool.false_or] at hsome
      rw [← hval] at hsome
      simp at hsome
    rw [hgrp]
    refine ⟨hne, rfl, ?_, rfl, listMin_mem _ hne,
      fun d hd => listMin_le_mem _ d hd, listMax_mem _ hne,
      fun d hd => listMax_ge_mem _ d hd⟩
    simp only [mkSummary, List.sum_eq_foldl]
  · intro name hne
    obtain ⟨hval, hsome⟩ := markerStats_go st markers [] name
    have hms : markerStats st markers = List.foldl
        (fun acc m =>
          if countedMarker m then
            pushDuration acc (markerSummaryName st m) (markerDuration m)
          else acc) [] markers := rfl
    rw [← hms] at hval hsome
    simp only [alookup, Option.isSome_none, Bool.false_or] at hsome
    have hsome' : (alookup (markerStats st markers) name).isSome = true := by
      rw [hsome]
      simpa using hne
    have hcount := countP_key_eq_one (markerStats st markers) name hnodup hsome'
    have hperm : (getMarkerSummary st markers).Perm
        ((markerStats st markers).map mkSummary) := List.mergeSort_perm _ _
    rw [List.Perm.countP_eq _ hperm, List.countP_map, ← hcount]
    exact List.countP_congr fun p _ => Iff.rfl

/-- C2 witness: one valid marker named `A` yields exactly one summary with
name `A`. -/
theorem getMarkerSummary_spec_witness :
    (getMarkerSummary (fun _ => "")
      [⟨"A", some 1, some 3, none, none⟩]).countP
        (fun s => s.name == "A") = 1 :=
  (getMarkerSummary_spec (fun _ => "")
    [⟨"A", some 1, some 3, none, none⟩]).2.2 "A"
    (by norm_num [groupedDurations, countedMarker, validMarkerSpan, truthyQ,
      markerDuration, markerSummaryName, List.filter])

/-! ## C5: page-load navigation metrics -/

theorem strStarts_disjoint {s p q : String} (hp : strStarts s p = true)
    (hno : p.toList.isPrefixOf q.toList = false)
    (hno' : q.toList.isPrefixOf p.toList = false) : strStarts s q = false := by
  cases hq : strStarts s q
  · rfl
  · exfalso
    have hp' : p.toList <+: s.toList := List.isPrefixOf_iff_prefix.mp hp
    have hq' : q.toList <+: s.toList := List.isPrefixOf_iff_prefix.mp hq
    rcases List.prefix_or_prefix_of_prefix hp' hq' with h | h
    · exact Bool.false_ne_true (hno ▸ List.isPrefixOf_iff_prefix.mpr h)
    · exact Bool.false_ne_true (hno' ▸ List.isPrefixOf_iff_prefix.mpr h)

theorem beq_lit_false_of_strStarts {name lit p : String}
    (hs : strStarts name p = true) (hlit : strStarts lit p = false) :
    (name == lit) = false := by
  cases hb : (name == lit)
  · rfl
  · rw [beq_iff_eq.mp hb] at hs
    exact absurd (hlit ▸ hs) (by decide)

theorem plStep_nav (st : StringTable) (s : PLState) (m : Marker) :
    (plStep st s m).navigationStart =
      if (pageLoadMarkerName st m == "Navigation::Start") &&
          s.navigationStart.isNone then some (markerStartVal m)
      else s.navigationStart := by
  by_cases h1 : (pageLoadMarkerName st m == "Navigation::Start") &&
      s.navigationStart.isNone
  · simp [plStep, h1]
  · by_cases h2 : strStarts (pageLoadMarkerName st m) "Load " &&
        (match m.data with | some d => truthyStr d.uri | none => false)
    · cases hs : s.navigationStart with
      | none => simp [hs] at h1; simp [plStep, h1, h2, hs]
      | some v => simp [plStep, h1, h2, hs, apply_ite]
    · by_cases h3 : (pageLoadMarkerName st m == "Load") && s.load.isNone
      · simp [plStep, h1, h2, h3]
      · by_cases h4 : strStarts (pageLoadMarkerName st m)
            "Contentful paint after" && s.fcp.isNone
        · cases hp : parseAfterMs (pageLoadMarkerName st m) with
          | none => simp [plStep, h1, h2, h3, h4, hp]
          | some v =>
            cases hu : matchForUrl (pageLoadMarkerName st m) <;>
              simp [plStep, h1, h2, h3, h4, hp, hu, apply_ite]
        · by_cases h5 : strStarts (pageLoadMarkerName st m)
              "Largest contentful paint after" && s.lcp.isNone
          · cases hp : parseAfterMs (pageLoadMarkerName st m) <;>
              simp [plStep, h1, h2, h3, h4, h5, hp]
          · simp [plStep, h1, h2, h3, h4, h5]

theorem plStep_load (st : StringTable) (s : PLState) (m : Marker) :
    (plStep st s m).load =
      if (pageLoadMarkerName st m == "Load") && s.load.isNone then
        some (markerStartVal m)
      else s.load := by
  by_cases hL : (pageLoadMarkerName st m == "Load") && s.load.isNone
  · have hname : pageLoadMarkerName st m = "Load" :=
      beq_iff_eq.mp (Bool.and_eq_true _ _ ▸ hL).1
    have hl0 : s.load = none :=
      Option.isNone_iff_eq_none.mp (Bool.and_eq_true _ _ ▸ hL).2
    have c1 : (("Load" : String) == "Navigation::Start") = false := by decide
    have c2 : strStarts "Load" "Load " = false := by decide
    simp [plStep, hname, c1, c2, hl0]
  · rw [if_neg hL]
    by_cases h1 : (pageLoadMarkerName st m == "Navigation::Start") &&
        s.navigationStart.isNone
    · simp [plStep, h1]
    · by_cases h2 : strStarts (pageLoadMarkerName st m) "Load " &&
          (match m.data with | some d => truthyStr d.uri | none => false)
      · cases hs : s.navigationStart with
        | none => simp [plStep, h1, h2, hs, apply_ite]
        | some v => simp [plStep, h1, h2, hs, apply_ite]
      · by_cases h4 : strStarts (pageLoadMarkerName st m)
            "Contentful paint after" && s.fcp.isNone
        · cases hp : parseAfterMs (pageLoadMarkerName st m) with
          | none => simp [plStep, h1, h2, hL, h4, hp]
          | some v =>
            cases hu : matchForUrl (pageLoadMarkerName st m) <;>
              simp [plStep, h1, h2, hL, h4, hp, hu, apply_ite]
        · by_cases h5 : strStarts (pageLoadMarkerName st m)
              "Largest contentful paint after" && s.lcp.isNone
          · cases hp : parseAfterMs (pageLoadMarkerName st m) <;>
              simp [plStep, h1, h2, hL, h4, h5, hp]
          · simp [plStep, h1, h2, hL, h4, h5]

theorem plStep_fcp (st : StringTable) (s : PLState) (m : Marker) :
    (plStep st s m).fcp =
      if strStarts (pageLoadMarkerName st m) "Contentful paint after" &&
          s.fcp.isNone then
        match parseAfterMs (pageLoadMarkerName st m) with
        | some v => some v
        | none => s.fcp
      else s.fcp := by
  by_cases hF : strStarts (pageLoadMarkerName st m) "Contentful paint after" &&
      s.fcp.isNone
  · have hst := (Bool.and_eq_true _ _ ▸ hF).1
    have e1 : (pageLoadMarkerName st m == "Navigation::Start") = false :=
      beq_lit_false_of_strStarts hst (by decide)
    have e2 : strStarts (pageLoadMarkerName st m) "Load " = false :=
      strStarts_disjoint hst (by decide) (by decide)
    have e3 : (pageLoadMarkerName st m == "Load") = false :=
      beq_lit_false_of_strStarts hst (by decide)
    cases hp : parseAfterMs (pageLoadMarkerName st m) with
    | none => simp [plStep, e1, e2, e3, hF, hp]
    | some v =>
      cases hu : matchForUrl (pageLoadMarkerName st m) <;>
        simp [plStep, e1, e2, e3, hF, hp, hu, apply_ite]
  · rw [if_neg hF]
    by_cases h1 : (pageLoadMarkerName st m == "Navigation::Start") &&
        s.navigationStart.isNone
    · simp [plStep, h1]
    · by_cases h2 : strStarts (pageLoadMarkerName st m) "Load " &&
          (match m.data with | some d => truthyStr d.uri | none => false)
      · cases hs : s.navigationStart with
        | none => simp [plStep, h1, h2, hs, apply_ite]
        | some v => simp [plStep, h1, h2, hs, apply_ite]
      · by_cases h3 : (pageLoadMarkerName st m == "Load") && s.load.isNone
        · simp [plStep, h1, h2, h3]
        · by_cases h5 : strStarts (pageLoadMarkerName st m)
              "Largest contentful paint after" && s.lcp.isNone
          · cases hp : parseAfterMs (pageLoadMarkerName st m) <;>
              simp [plStep, h1, h2, h3, hF, h5, hp]
          · simp [plStep, h1, h2, h3, hF, h5]

theorem plStep_lcp (st : StringTable) (s : PLState) (m : Marker) :
    (plStep st s m).lcp =
      if strStarts (pageLoadMarkerName st m)
          "Largest contentful paint after" && s.lcp.isNone then
        match parseAfterMs (pageLoadMarkerName st m) with
        | some v => some v
        | none => s.lcp
      else s.lcp := by
  by_cases hF : strStarts (pageLoadMarkerName st m)
      "Largest contentful paint after" && s.lcp.isNone
  · have hst := (Bool.and_eq_true _ _ ▸ hF).1
    have e1 : (pageLoadMarkerName st m == "Navigation::Start") = false :=
      beq_lit_false_of_strStarts hst (by decide)
    have e2 : strStarts (pageLoadMarkerName st m) "Load " = false :=
      strStarts_disjoint hst (by decide) (by decide)
    have e3 : (pageLoadMarkerName st m == "Load") = false :=
      beq_lit_false_of_strStarts hst (by decide)
    have e4 : strStarts (pageLoadMarkerName st m)
        "Contentful paint after" = false :=
      strStarts_disjoint hst (by decide) (by decide)
    cases hp : parseAfterMs (pageLoadMarkerName st m) <;>
      simp [plStep, e1, e2, e3, e4, hF, hp]
  · rw [if_neg hF]
    by_cases h1 : (pageLoadMarkerName st m == "Navigation::Start") &&
        s.navigationStart.isNone
    · simp [plStep, h1]
    · by_cases h2 : strStarts (pageLoadMarkerName st m) "Load " &&
          (match m.data with | some d => truthyStr d.uri | none => false)
      · cases hs : s.navigationStart with
        | none => simp [plStep, h1, h2, hs, apply_ite]
        | some v => simp [plStep, h1, h2, hs, apply_ite]
      · by_cases h3 : (pageLoadMarkerName st m == "Load") && s.load.isNone
        · simp [plStep, h1, h2, h3]
        · by_cases h4 : strStarts (pageLoadMarkerName st m)
              "Contentful paint after" && s.fcp.isNone
          · cases hp : parseAfterMs (pageLoadMarkerName st m) with
            | none => simp [plStep, h1, h2, h3, h4, hF, hp]
            | some v =>
              cases hu : matchForUrl (pageLoadMarkerName st m) <;>
                simp [plStep, h1, h2, h3, h4, hF, hp, hu, apply_ite]
          · simp [plStep, h1, h2, h3, h4, hF]

theorem foldl_plStep_nav (st : StringTable) (ms : List Marker) :
    ∀ s : PLState, (ms.foldl (plStep st) s).navigationStart =
      match s.navigationStart with
      | some v => some v
      | none => (ms.find? fun m =>
          pageLoadMarkerName st m == "Navigation::Start").map markerStartVal := by
  induction ms with
  | nil => intro s; cases hs : s.navigationStart <;> simp [hs]
  | cons m ms ih =>
    intro s
    rw [List.foldl_cons, ih (plStep st s m), plStep_nav]
    cases hs : s.navigationStart with
    | some v => simp [hs]
    | none =>
      by_cases hname : (pageLoadMarkerName st m == "Navigation::Start")
      · simp [hs, hname, List.find?_cons_of_pos]
      · simp [hs, hname, List.find?_cons_of_neg]

theorem foldl_plStep_load (st : StringTable) (ms : List Marker) :
    ∀ s : PLState, (ms.foldl (plStep st) s).load =
      match s.load with
      | some v => some v
      | none => (ms.find? fun m =>
          pageLoadMarkerName st m == "Load").map markerStartVal := by
  induction ms with
  | nil => intro s; cases hs : s.load <;> simp [hs]
  | cons m ms ih =>
    intro s
    rw [List.foldl_cons, ih (plStep st s m), plStep_load]
    cases hs : s.load with
    | some v => simp [hs]
    | none =>
      by_cases hname : (pageLoadMarkerName st m == "Load")
      · simp [hs, hname, List.find?_cons_of_pos]
      · simp [hs, hname, List.find?_cons_of_neg]

theorem foldl_plStep_fcp (st : StringTable) (ms : List Marker) :
    ∀ s : PLState, (ms.foldl (plStep st) s).fcp =
      match s.fcp with
      | some v => some v
      | none => (ms.find? fun m =>
          strStarts (pageLoadMarkerName st m) "Contentful paint after" &&
            (parseAfterMs (pageLoadMarkerName st m)).isSome).bind
          fun m => parseAfterMs (pageLoadMarkerName st m) := by
  induction ms with
  | nil => intro s; cases hs : s.fcp <;> simp [hs]
  | cons m ms ih =>
    intro s
    rw [List.foldl_cons, ih (plStep st s m), plStep_fcp]
    cases hs : s.fcp with
    | some v => simp [hs]
    | none =>
      by_cases hst : strStarts (pageLoadMarkerName st m)
          "Contentful paint after"
      · cases hp : parseAfterMs (pageLoadMarkerName st m) with
        | some v =>
          rw [List.find?_cons_of_pos _ (by simp [hst, hp])]
          simp [hs, hst, hp]
        | none =>
          rw [List.find?_cons_of_neg _ (by simp [hst, hp])]
          simp [hs, hst, hp]
      · rw [List.find?_cons_of_neg _ (by simp [hst])]
        simp [hs, hst]

theorem foldl_plStep_lcp (st : StringTable) (ms : List Marker) :
    ∀ s : PLState, (ms.foldl (plStep st) s).lcp =
      match s.lcp with
      | some v => some v
      | none => (ms.find? fun m =>
          strStarts (pageLoadMarkerName st m)
            "Largest contentful paint after" &&
            (parseAfterMs (pageLoadMarkerName st m)).isSome).bind
          fun m => parseAfterMs (pageLoadMarkerName st m) := by
  induction ms with
  | nil => intro s; cases hs : s.lcp <;> simp [hs]
  | cons m ms ih =>
    intro s
    rw [List.foldl_cons, ih (plStep st s m), plStep_lcp]
    cases hs : s.lcp with
    | some v => simp [hs]
    | none =>
      by_cases hst : strStarts (pageLoadMarkerName st m)
          "Largest contentful paint after"
      · cases hp : parseAfterMs (pageLoadMarkerName st m) with
        | some v =>
          rw [List.find?_cons_of_pos _ (by simp [hst, hp])]
          simp [hs, hst, hp]
        | none =>
          rw [List.find?_cons_of_neg _ (by simp [hst, hp])]
          simp [hs, hst, hp]
      · rw [List.find?_cons_of_neg _ (by simp [hst])]
        simp [hs, hst]

/-- C5: in `getPageLoadSummary`'s result, `navigationStart` comes from the
first marker resolving to `Navigation::Start`; `load` is the first `Load`
marker's start value minus `navigationStart` when both markers exist and
null otherwise; `firstContentfulPaint` and `largestContentfulPaint` are the
millisecond values parsed (by the `/after (\d+)ms/` search) from the first
marker whose resolved name starts with `Contentful paint after` resp.
`Largest contentful paint after` and parses, and null when no such marker
parses. -/
theorem getPageLoadNav_spec (st : StringTable) (markers : List Marker) :
    (getPageLoadNav st markers).navigationStart =
      (markers.find? fun m =>
        pageLoadMarkerName st m == "Navigation::Start").map markerStartVal ∧
    (getPageLoadNav st markers).load =
      (match markers.find? fun m => pageLoadMarkerName st m == "Load",
             markers.find? fun m =>
               pageLoadMarkerName st m == "Navigation::Start" with
       | some lm, some nm => some (markerStartVal lm - markerStartVal nm)
       | _, _ => none) ∧
    (getPageLoadNav st markers).firstContentfulPaint =
      (markers.find? fun m =>
        strStarts (pageLoadMarkerName st m) "Contentful paint after" &&
          (parseAfterMs (pageLoadMarkerName st m)).isSome).bind
        (fun m => parseAfterMs (pageLoadMarkerName st m)) ∧
    (getPageLoadNav st markers).largestContentfulPaint =
      (markers.find? fun m =>
        strStarts (pageLoadMarkerName st m)
          "Largest contentful paint after" &&
          (parseAfterMs (pageLoadMarkerName st m)).isSome).bind
        (fun m => parseAfterMs (pageLoadMarkerName st m)) := by
  have hnav := foldl_plStep_nav st markers ⟨none, none, none, none, none, []⟩
  have hload := foldl_plStep_load st markers ⟨none, none, none, none, none, []⟩
  have hfcp := foldl_plStep_fcp st markers ⟨none, none, none, none, none, []⟩
  have hlcp := foldl_plStep_lcp st markers ⟨none, none, none, none, none, []⟩
  refine ⟨?_, ?_, ?_, ?_⟩
  · simpa [getPageLoadNav] using hnav
  · show (match (markers.foldl (plStep st)
        ⟨none, none, none, none, none, []⟩).load,
          (markers.foldl (plStep st)
        ⟨none, none, none, none, none, []⟩).navigationStart with
      | some l, some n => some (l - n)
      | _, _ => none) = _
    rw [hnav, hload]
    cases markers.find? fun m => pageLoadMarkerName st m == "Load" <;>
      cases markers.find? fun m =>
        pageLoadMarkerName st m == "Navigation::Start" <;> simp
  · simpa [getPageLoadNav] using hfcp
  · simpa [getPageLoadNav] using hlcp

/-! ## C4: network resources -/

theorem consecPhases_eq_zip : ∀ l : List (String × ℚ),
    consecPhases l = (l.zip l.tail).map fun pc =>
      (⟨humanLabelForPhase pc.1.1, pc.2.2 - pc.1.2⟩ : NetworkPhase)
  | [] => rfl
  | [_] => rfl
  | a :: b :: rest => by
    have ih := consecPhases_eq_zip (b :: rest)
    simp only [consecPhases, ih]
    rfl

theorem alookup_addTotal (acc : List (String × ℚ)) (k : String) (v : ℚ)
    (key : String) :
    (alookup (addTotal acc k v) key).getD 0 =
      (alookup acc key).getD 0 + (if key = k then v else 0) := by
  induction acc with
  | nil =>
    by_cases h : key = k
    · subst h; simp [addTotal, alookup]
    · have h2 : ¬k = key := fun h' => h h'.symm
      simp [addTotal, alookup, h, h2]
  | cons p rest ih =>
    obtain ⟨k', x⟩ := p
    by_cases hk : k' = k
    · subst hk
      by_cases hkey : key = k'
      · subst hkey; simp [addTotal, alookup]
      · have h2 : ¬k' = key := fun h' => hkey h'.symm
        simp [addTotal, alookup, hkey, h2]
    · have hk2 : ¬k = k' := fun h' => hk h'.symm
      by_cases hkey : key = k'
      · subst hkey
        simp [addTotal, alookup, hk, hk2]
      · have hkey2 : ¬k' = key := fun h' => hkey h'.symm
        simp [addTotal, alookup, hk, hkey2, ih]

theorem alookup_foldl_addTotal (ps : List NetworkPhase) :
    ∀ (t : List (String × ℚ)) (key : String),
      (alookup (ps.foldl (fun t p => addTotal t p.label p.duration) t)
        key).getD 0 =
        (alookup t key).getD 0 +
          ((ps.filter fun p => p.label == key).map
            NetworkPhase.duration).sum := by
  induction ps with
  | nil => intro t key; simp
  | cons p ps ih =>
    intro t key
    rw [List.foldl_cons, ih, alookup_addTotal]
    cases hb : (p.label == key) with
    | true =>
      have hkey : key = p.label := (beq_iff_eq.mp hb).symm
      simp only [List.filter_cons, hb, List.map_cons, List.sum_cons,
        if_pos hkey, if_true]
      ring
    | false =>
      have hkey : ¬key = p.label := fun he => by simp [he] at hb
      simp only [List.filter_cons, hb, if_neg hkey, Bool.false_eq_true,
        if_false]
      ring

theorem foldl_netStep_resources (nav : Option ℚ) (ms : List Marker) :
    ∀ acc : NetAcc, (ms.foldl (netStep nav) acc).resources =
      acc.resources ++ ms.filterMap (netMarkerResource nav) := by
  induction ms with
  | nil => intro acc; simp
  | cons m ms ih =>
    intro acc
    rw [List.foldl_cons, ih]
    by_cases h : isNetworkStop m
    · simp [netStep, h, netMarkerResource, List.filterMap_cons]
    · simp [netStep, h, netMarkerResource, List.filterMap_cons]

theorem foldl_netStep_totals (nav : Option ℚ) (ms : List Marker) :
    ∀ (acc : NetAcc) (key : String),
      (alookup (ms.foldl (netStep nav) acc).phaseTotals key).getD 0 =
        (alookup acc.phaseTotals key).getD 0 +
          ((ms.filterMap (netMarkerResource nav)).map fun r =>
            ((r.phases.filter fun p => p.label == key).map
              NetworkPhase.duration).sum).sum := by
  induction ms with
  | nil => intro acc key; simp
  | cons m ms ih =>
    intro acc key
    rw [List.foldl_cons, ih]
    by_cases h : isNetworkStop m
    · have hsteq : (netStep nav acc m).phaseTotals =
        (mkNetResource nav m).phases.foldl
          (fun t p => addTotal t p.label p.duration) acc.phaseTotals := by
        simp [netStep, h]
      rw [hsteq, alookup_foldl_addTotal]
      simp only [netMarkerResource, h, if_true, List.filterMap_cons,
        List.map_cons, List.sum_cons]
      ring
    · have hsteq : (netStep nav acc m).phaseTotals = acc.phaseTotals := by
        simp [netStep, h]
      rw [hsteq]
      simp [netMarkerResource, h, List.filterMap_cons]

theorem findNavStart_eq_find (st : StringTable) : ∀ ms : List Marker,
    findNavStart st ms = (ms.find? fun m =>
      networkMarkerName st m == "Navigation::Start").map markerStartVal := by
  intro ms
  induction ms with
  | nil => rfl
  | cons m ms ih =>
    by_cases h : networkMarkerName st m == "Navigation::Start"
    · simp [findNavStart, h, List.find?_cons_of_pos]
    · simp [findNavStart, h, List.find?_cons_of_neg, ih]

/-- C3/C4 shared sortedness helper is above; this is the C4 claim.
C4: `getNetworkResources` includes one resource for exactly the markers
whose `data.type` is `Network` and `data.status` is `STATUS_STOP`; each
resource's phases are the consecutive differences of the timestamps present
as numbers, in the fixed eleven-phase order, labeled by the earlier phase's
human label; `phaseTotals` at each label is the sum of that label's
durations over all resources; resources are sorted by start time relative
to the first `Navigation::Start` marker (ascending); and `totalResources`
is the number of resources. -/
theorem getNetworkResources_spec (st : StringTable) (markers : List Marker) :
    (getNetworkResources st markers).resources.Perm
      (markers.filterMap (netMarkerResource (findNavStart st markers))) ∧
    (getNetworkResources st markers).resources.Pairwise
      (fun a b => a.startTime ≤ b.startTime) ∧
    (getNetworkResources st markers).totalResources =
      (getNetworkResources st markers).resources.length ∧
    (∀ m : Marker,
      (mkNetResource (findNavStart st markers) m).phases =
        ((availablePhases (m.data.getD MarkerData.empty)).zip
          (availablePhases (m.data.getD MarkerData.empty)).tail).map
          (fun pc => ⟨humanLabelForPhase pc.1.1, pc.2.2 - pc.1.2⟩)) ∧
    (∀ key,
      (alookup (getNetworkResources st markers).phaseTotals key).getD 0 =
        ((markers.filterMap
          (netMarkerResource (findNavStart st markers))).map fun r =>
            ((r.phases.filter fun p => p.label == key).map
              NetworkPhase.duration).sum).sum) ∧
    findNavStart st markers = (markers.find? fun m =>
      networkMarkerName st m == "Navigation::Start").map markerStartVal ∧
    (∀ m : Marker,
      (mkNetResource (findNavStart st markers) m).startTime =
        (match findNavStart st markers with
         | some n => jsOr m.start 0 - n
         | none => jsOr m.start 0)) := by
  have hres := foldl_netStep_resources (findNavStart st markers) markers
    ⟨[], [], []⟩
  have hR : (getNetworkResources st markers).resources =
      (markers.filterMap
        (netMarkerResource (findNavStart st markers))).mergeSort
        startAscLe := by
    show ((markers.foldl (netStep (findNavStart st markers))
      ⟨[], [], []⟩).resources).mergeSort startAscLe = _
    rw [hres]
    rfl
  refine ⟨?_, ?_, ?_, ?_, ?_, findNavStart_eq_find st markers, ?_⟩
  · rw [hR]
    exact List.mergeSort_perm _ _
  · rw [hR]
    exact pairwise_mergeSort_asc NetworkResourceTiming.startTime _
  · show (markers.foldl (netStep (findNavStart st markers))
      ⟨[], [], []⟩).resources.length = _
    rw [hR, List.length_mergeSort, hres]
    rfl
  · intro m
    exact consecPhases_eq_zip _
  · intro key
    have htot := foldl_netStep_totals (findNavStart st markers) markers
      ⟨[], [], []⟩ key
    simpa [alookup] using htot
  · intro m
    rfl

/-! ## C3: flamegraph forest invariants -/

theorem totalsSortedDesc_of_pairwise : ∀ {l : List FlameNode},
    l.Pairwise (fun a b => b.totalTime ≤ a.totalTime) →
    totalsSortedDesc l = true
  | [], _ => rfl
  | [_], _ => rfl
  | a :: b :: r, h => by
    obtain ⟨ha, h'⟩ := List.pairwise_cons.mp h
    rw [totalsSortedDesc, Bool.and_eq_true]
    exact ⟨decide_eq_true (ha b (List.mem_cons_self ..)),
      totalsSortedDesc_of_pairwise h'⟩

theorem buildFlameTree_good (maxDepth : Option Nat) :
    ∀ t : CTree, ∀ (d : Nat) (f : FlameNode),
      buildFlameTree maxDepth d t = some f →
      f.wellSorted = true ∧
      ∀ md, maxDepth = some md → f.heightLe (md - d) = true := by
  intro t
  induction t using ctreeInductionOn with
  | h nd cs ihc =>
    intro d f hbuild
    by_cases hfn : hasFuncName nd
    · simp only [buildFlameTree] at hbuild
      rw [if_pos hfn] at hbuild
      by_cases hcut : depthCutoff maxDepth d
      · rw [if_pos hcut] at hbuild
        cases hbuild
      · rw [if_neg hcut] at hbuild
        obtain rfl := (Option.some_inj.mp hbuild).symm
        constructor
        · rw [FlameNode.wellSorted, Bool.and_eq_true]
          constructor
          · exact totalsSortedDesc_of_pairwise
              (pairwise_mergeSort_desc FlameNode.totalTime _)
          · rw [List.all_eq_true]
            intro c hc
            have hc1 := List.mem_mergeSort.mp c.2
            obtain ⟨a, ha, hae⟩ := List.mem_filterMap.mp hc1
            exact (ihc a.1 a.2 (d + 1) c.1 hae).1
        · intro md hmd
          subst hmd
          have hd : d < md := by
            simp only [depthCutoff, decide_eq_true_eq] at hcut
            omega
          have hsucc : md - d = (md - (d + 1)) + 1 := by omega
          rw [hsucc, FlameNode.heightLe, List.all_eq_true]
          intro c hc
          have hc1 := List.mem_mergeSort.mp c.2
          obtain ⟨a, ha, hae⟩ := List.mem_filterMap.mp hc1
          exact (ihc a.1 a.2 (d + 1) c.1 hae).2 md rfl
    · simp only [buildFlameTree] at hbuild
      rw [if_neg hfn] at hbuild
      cases hbuild

/-- C3: in the forest returned by `getFlamegraphData`, the roots are sorted
by total time descending, every node's children list is sorted by total
time descending, when `maxDepth` is a number no node sits at depth
`≥ maxDepth` (roots at depth 0), and a call-tree node without a truthy
`funcName` is excluded together with its whole subtree. -/
theorem getFlamegraphData_spec (roots : List CTree) (maxDepth : Option Nat) :
    totalsSortedDesc (getFlamegraphData roots maxDepth) = true ∧
    (∀ f ∈ getFlamegraphData roots maxDepth, f.wellSorted = true) ∧
    (∀ md, maxDepth = some md →
      ∀ f ∈ getFlamegraphData roots maxDepth, f.heightLe md = true) ∧
    (∀ (t : CTree) (d : Nat), hasFuncName t.nd = false →
      buildFlameTree maxDepth d t = none) := by
  refine ⟨?_, ?_, ?_, ?_⟩
  · exact totalsSortedDesc_of_pairwise
      (pairwise_mergeSort_desc FlameNode.totalTime _)
  · intro f hf
    obtain ⟨t, ht, hbuild⟩ := List.mem_filterMap.mp (List.mem_mergeSort.mp hf)
    exact (buildFlameTree_good maxDepth t 0 f hbuild).1
  · intro md hmd f hf
    obtain ⟨t, ht, hbuild⟩ := List.mem_filterMap.mp (List.mem_mergeSort.mp hf)
    have h := (buildFlameTree_good maxDepth t 0 f hbuild).2 md hmd
    simpa using h
  · intro t d hfn
    cases t with
    | node nd cs =>
      simp only [CTree.nd] at hfn
      simp [buildFlameTree, hfn]

/-- C3 witness: a two-level call tree cut at `maxDepth = 1` yields a single
well-sorted root of height 1, and a data-less node builds to `none`. -/
theorem getFlamegraphData_spec_witness :
    (FlameNode.mk "a" 1 5 []).heightLe 1 = true ∧
    (FlameNode.mk "a" 1 5 []).wellSorted = true ∧
    buildFlameTree (some 1) 0 (CTree.node none []) = none := by
  have h := getFlamegraphData_spec
    [CTree.node (some ⟨some "a", some 1, some 5⟩)
      [CTree.node (some ⟨some "b", some 2, some 2⟩) []]] (some 1)
  have hf : getFlamegraphData
      [CTree.node (some ⟨some "a", some 1, some 5⟩)
        [CTree.node (some ⟨some "b", some 2, some 2⟩) []]] (some 1) =
      [FlameNode.mk "a" 1 5 []] := by
    norm_num [getFlamegraphData, buildFlameTree, hasFuncName, truthyStr,
      funcNameOf, depthCutoff, jsOr, List.mergeSort, List.filterMap_cons,
      show "a".isEmpty = false from rfl]
  exact ⟨h.2.2.1 1 rfl _ (by rw [hf]; exact List.mem_singleton.mpr rfl),
    h.2.1 _ (by rw [hf]; exact List.mem_singleton.mpr rfl),
    h.2.2.2 (CTree.node none []) 0 rfl⟩

end ProfilerCli
